import Mathlib

/-!
SimpleCompiler (`src/tempo.cpp`): a shallow embedding.

The interpreter of `src/tempo.cpp` is translated function by function.

* `std::string` is `List Char` (`Str`).
* `size_t` is a natural number below `2 ^ 64`; `std::string::npos` is `2 ^ 64 - 1` and the
  arithmetic the source performs on positions wraps modulo `2 ^ 64`.
* `int` is an integer; `+`, `-`, `*` wrap to 32 bits, `/` truncates toward zero.
* `std::unordered_map<std::string, int>` is an association list read through its first
  matching key.
* `std::cout` and `std::cerr` are the texts written so far.
* An uncaught `std::out_of_range` and an integer division by zero end the run with a `Fault`;
  `exit(0)` ends it with `Status.exited 0`.
-/

namespace SimpleCompiler

/-- The `std::string` of the source: a sequence of characters. -/
abbrev Str := List Char

/-- The value of `std::string::npos`, the largest `size_t`. -/
def npos : Nat := 18446744073709551615

/-- Addition of two `size_t` values. -/
def sizeAdd (a b : Nat) : Nat := (a + b) % 18446744073709551616

/-- Subtraction of two `size_t` values (both below `2 ^ 64`). -/
def sizeSub (a b : Nat) : Nat := (a + 18446744073709551616 - b) % 18446744073709551616

/-- The 32-bit two's-complement value an `int` computation wraps to. -/
def wrapInt (z : Int) : Int := (z + 2147483648) % 4294967296 - 2147483648

/-- Ways in which the process dies other than through `exit`. -/
inductive Fault where
  | outOfRange
  | divByZero
deriving DecidableEq, Repr

/-- Whether the process is still reading lines. -/
inductive Status where
  | running
  | exited (code : Int)
  | faulted (f : Fault)
deriving DecidableEq, Repr

/-- The type of the member `variables`. -/
abbrev Store := List (Str × Int)

/-- The observable state: the member `variables` (here `vars`) and the two console streams. -/
structure World where
  vars : Store
  out : Str
  err : Str
deriving DecidableEq, Repr

/-! ## `std::string` operations -/

/-- The loop of `find`: the first index, counted from `i`, at which `pat` starts. -/
def findAux (pat : Str) : Str → Nat → Nat
  | [], i => if pat = [] then i else npos
  | c :: cs, i => if pat.isPrefixOf (c :: cs) then i else findAux pat cs (i + 1)

/-- The call `s.find(pat)`. -/
def find (s pat : Str) : Nat := findAux pat s 0

/-- The first index, counted from `i`, whose character satisfies `p`. -/
def findIdxAux (p : Char → Bool) : Str → Nat → Nat
  | [], _ => npos
  | c :: cs, i => if p c then i else findIdxAux p cs (i + 1)

/-- The call `s.find_first_of(set)`. -/
def find_first_of (s set : Str) : Nat := findIdxAux (fun c => decide (c ∈ set)) s 0

/-- The call `s.find_first_not_of(set)`. -/
def find_first_not_of (s set : Str) : Nat := findIdxAux (fun c => !decide (c ∈ set)) s 0

/-- The last index whose character satisfies `p`; `best` is the answer so far. -/
def findLastAux (p : Char → Bool) : Str → Nat → Nat → Nat
  | [], _, best => best
  | c :: cs, i, best => findLastAux p cs (i + 1) (if p c then i else best)

/-- The call `s.find_last_not_of(set)`. -/
def find_last_not_of (s set : Str) : Nat := findLastAux (fun c => !decide (c ∈ set)) s 0 npos

/-- The characters `s.substr(pos, len)` returns when it does not throw. -/
def substrD (s : Str) (pos len : Nat) : Str := (s.drop pos).take len

/-- The call `s.substr(pos, len)`: `none` is the `std::out_of_range` thrown when
`pos > s.size()`. -/
def substr (s : Str) (pos len : Nat) : Option Str :=
  if s.length < pos then none else some (substrD s pos len)

/-- The character `s[i]` (the source only indexes inside the string). -/
def charAt (s : Str) (i : Nat) : Char := s.getD i (Char.ofNat 0)

/-- The set `" \t"` that `trim` strips. -/
def blanks : Str := [' ', '\t']

/-- Membership in the set `" \t"`, as a test. -/
def isBlank (c : Char) : Bool := decide (c ∈ blanks)

/-- The function `trim`: `start ≤ size` whenever `start` is not `npos`, so this `substr`
cannot throw. -/
def trim (str : Str) : Str :=
  let start := find_first_not_of str blanks
  let last := find_last_not_of str blanks
  if start = npos ∨ last = npos then []
  else substrD str start (sizeAdd (sizeSub last start) 1)

/-- The function `removeSemicolons`: `substr(0, pos)` cannot throw. -/
def removeSemicolons (str : Str) : Str :=
  let pos := find str [';']
  if pos ≠ npos then substrD str 0 pos else str

/-! ## `std::stoi` and integer output -/

/-- The C `isspace` of the default locale. -/
def isspace (c : Char) : Bool := c.toNat = 32 || (9 ≤ c.toNat && c.toNat ≤ 13)

/-- The C `isdigit`. -/
def isdigit (c : Char) : Bool := 48 ≤ c.toNat && c.toNat ≤ 57

/-- The value of a run of decimal digits, most significant first. -/
def digitsValue (ds : Str) : Nat := ds.foldl (fun acc c => 10 * acc + (c.toNat - 48)) 0

/-- The three outcomes of `std::stoi`. -/
inductive Stoi where
  | ok (v : Int)
  | invalidArgument
  | outOfRange
deriving DecidableEq, Repr

/-- The call `std::stoi(str)`: skip leading white space, read an optional sign and the longest
run of decimal digits; no digit is `std::invalid_argument`, a value outside `int` is
`std::out_of_range`. What follows the digits is ignored. -/
def stoi (str : Str) : Stoi :=
  let s1 := str.dropWhile isspace
  let neg := s1.head? = some '-'
  let s2 := if s1.head? = some '-' ∨ s1.head? = some '+' then s1.tail else s1
  let ds := s2.takeWhile isdigit
  if ds = [] then Stoi.invalidArgument
  else
    let v : Int := if neg then -(digitsValue ds : Int) else (digitsValue ds : Int)
    if -2147483648 ≤ v ∧ v ≤ 2147483647 then Stoi.ok v else Stoi.outOfRange

/-- The text `std::cout << v` writes for an `int`. -/
def intToStr : Int → Str
  | Int.ofNat n => Nat.toDigits 10 n
  | Int.negSucc n => '-' :: Nat.toDigits 10 (n + 1)

/-! ## The variable store -/

/-- The call `variables.find(k)`, as the value found, if any. -/
def Store.find : Store → Str → Option Int
  | [], _ => none
  | (k', v) :: m, k => if k' = k then some v else Store.find m k

/-- The assignment `variables[k] = v`: overwrite the binding or create it. -/
def Store.assign : Store → Str → Int → Store
  | [], k, v => [(k, v)]
  | (k', v') :: m, k, v => if k' = k then (k', v) :: m else (k', v') :: Store.assign m k v

/-- The read `variables[k]`: an absent key is first inserted with the value `0`. -/
def Store.index (m : Store) (k : Str) : Int × Store :=
  match Store.find m k with
  | some v => (v, m)
  | none => (0, Store.assign m k 0)

/-! ## The interpreter -/

/-- What an `int`-returning member function hands back: its value, or the fault that ended
the process inside it. -/
inductive Res where
  | val (v : Int)
  | fault (f : Fault)
deriving DecidableEq, Repr

/-- The member function `getValue`. The `catch` clause only handles `std::invalid_argument`;
`std::out_of_range` leaves the function. -/
def getValue (w : World) (str : Str) : World × Res :=
  if (Store.find w.vars str).isSome then
    let r := Store.index w.vars str
    ({ w with vars := r.2 }, Res.val r.1)
  else
    match stoi str with
    | Stoi.ok v => (w, Res.val v)
    | Stoi.invalidArgument =>
      ({ w with err := w.err ++ "Error: Invalid argument: ".toList ++ str ++ ['\n'] },
        Res.val (-1))
    | Stoi.outOfRange => (w, Res.fault Fault.outOfRange)

/-- The `switch (op)` of `evaluateExpression`, on the two resolved operands. The guard
`rightValue != -1` of the caller excludes `INT_MIN / -1`. -/
def applyOp (w : World) (op : Char) (leftValue rightValue : Int) : World × Res :=
  if op = '+' then (w, Res.val (wrapInt (leftValue + rightValue)))
  else if op = '-' then (w, Res.val (wrapInt (leftValue - rightValue)))
  else if op = '*' then (w, Res.val (wrapInt (leftValue * rightValue)))
  else if op = '/' then
    if rightValue = 0 then (w, Res.fault Fault.divByZero)
    else (w, Res.val (Int.tdiv leftValue rightValue))
  else (w, Res.val (-1))

/-- The member function `evaluateExpression`. -/
def evaluateExpression (w : World) (expr : Str) : World × Res :=
  let operatorPos := find_first_of expr ['+', '-', '*', '/']
  if operatorPos ≠ npos then
    match substr expr 0 operatorPos with
    | none => (w, Res.fault Fault.outOfRange)
    | some l =>
      match substr expr (sizeAdd operatorPos 1) npos with
      | none => (w, Res.fault Fault.outOfRange)
      | some r =>
        match getValue w (trim l) with
        | (w1, Res.fault f) => (w1, Res.fault f)
        | (w1, Res.val leftValue) =>
          match getValue w1 (trim r) with
          | (w2, Res.fault f) => (w2, Res.fault f)
          | (w2, Res.val rightValue) =>
            if leftValue ≠ -1 ∧ rightValue ≠ -1 then
              applyOp w2 (charAt expr operatorPos) leftValue rightValue
            else (w2, Res.val (-1))
  else getValue w expr

/-- The member function `evaluateCondition`. -/
def evaluateCondition (w : World) (var1 var2 : Str) (op : Char) : World × Bool :=
  if (Store.find w.vars var1).isSome ∧ (Store.find w.vars var2).isSome then
    let r1 := Store.index w.vars var1
    let r2 := Store.index r1.2 var2
    let w1 : World := { w with vars := r2.2 }
    if op = '>' then (w1, decide (r1.1 > r2.1))
    else if op = '<' then (w1, decide (r1.1 < r2.1))
    else (w1, false)
  else (w, false)

/-- The member function `handleIfCondition`. In `variables["c"] = variables[v]` the right side
is read (and created when absent) before `c` is assigned. -/
def handleIfCondition (w : World) (line : Str) : World × Status :=
  let conditionStart := sizeAdd (find line ['(']) 1
  let conditionEnd := find line [')']
  match substr line conditionStart (sizeSub conditionEnd conditionStart) with
  | none => (w, Status.faulted Fault.outOfRange)
  | some condition =>
    let operatorPos :=
      if find condition ['>'] = npos then find condition ['<'] else find condition ['>']
    if operatorPos ≠ npos then
      match substr condition 0 operatorPos with
      | none => (w, Status.faulted Fault.outOfRange)
      | some l =>
        match substr condition (sizeAdd operatorPos 1) npos with
        | none => (w, Status.faulted Fault.outOfRange)
        | some r =>
          let var1 := trim l
          let var2 := trim r
          let op := charAt condition operatorPos
          let e := evaluateCondition w var1 var2 op
          if e.2 then
            let r1 := Store.index e.1.vars var1
            ({ e.1 with
                vars := Store.assign r1.2 ['c'] r1.1
                out := e.1.out ++ "Condition met: ".toList ++ var1 ++ [' ', op, ' '] ++ var2
                  ++ ['\n'] },
              Status.running)
          else
            let r2 := Store.index e.1.vars var2
            ({ e.1 with
                vars := Store.assign r2.2 ['c'] r2.1
                out := e.1.out ++ "Condition not met: ".toList ++ var1 ++ [' ', op, ' '] ++ var2
                  ++ ['\n'] },
              Status.running)
    else (w, Status.running)

/-- The member function `handlePrintStatement`. -/
def handlePrintStatement (w : World) (line : Str) : World × Status :=
  let varPos := sizeAdd (find line "print".toList) 6
  match substr line varPos npos with
  | none => (w, Status.faulted Fault.outOfRange)
  | some t =>
    let varName := removeSemicolons (trim t)
    if (Store.find w.vars varName).isSome then
      let r := Store.index w.vars varName
      ({ w with vars := r.2, out := w.out ++ intToStr r.1 ++ ['\n'] }, Status.running)
    else
      ({ w with err := w.err ++ "Error: Variable ".toList ++ varName ++ " not found!".toList
          ++ ['\n'] },
        Status.running)

/-- The declaration branch of `parseLine`, on the trimmed line. -/
def handleDeclaration (w : World) (trimmedLine : Str) : World × Status :=
  let eqPos := find trimmedLine ['=']
  match substr trimmedLine 4 (sizeSub eqPos 5) with
  | none => (w, Status.faulted Fault.outOfRange)
  | some varName =>
    match substr trimmedLine (sizeAdd eqPos 2) npos with
    | none => (w, Status.faulted Fault.outOfRange)
    | some valueStr =>
      match evaluateExpression w (removeSemicolons (trim valueStr)) with
      | (w1, Res.fault f) => (w1, Status.faulted f)
      | (w1, Res.val value) =>
        if value ≠ -1 then
          ({ w1 with
              vars := Store.assign w1.vars varName value
              out := w1.out ++ "Variable ".toList ++ varName ++ " set to ".toList
                ++ intToStr value ++ ['\n'] },
            Status.running)
        else (w1, Status.running)

/-- The member function `parseLine`. -/
def parseLine (w : World) (line : Str) : World × Status :=
  let trimmedLine := trim line
  if trimmedLine = [] ∨ trimmedLine = [';'] then (w, Status.running)
  else if find trimmedLine "let".toList ≠ npos then handleDeclaration w trimmedLine
  else if find trimmedLine "if".toList ≠ npos then handleIfCondition w trimmedLine
  else if find trimmedLine "print".toList ≠ npos then handlePrintStatement w trimmedLine
  else if find trimmedLine "exit".toList ≠ npos then
    ({ w with out := w.out ++ "Exiting the program.".toList ++ ['\n'] }, Status.exited 0)
  else (w, Status.running)

/-- The lines `std::getline` extracts from the text: `acc` holds, reversed, the characters
read since the last line break; a final line without a line break is still delivered, and no
empty line follows a trailing line break. -/
def getlinesAux : Str → Str → List Str
  | [], acc => if acc = [] then [] else [acc.reverse]
  | c :: cs, acc => if c = '\n' then acc.reverse :: getlinesAux cs [] else getlinesAux cs (c :: acc)

/-- All the lines the `while (std::getline(stream, line))` loop of `compile` sees. -/
def getlines (code : Str) : List Str := getlinesAux code []

/-- The loop of `compile` over the lines still to read: it stops as soon as a line ends the
process. -/
def runLines (w : World) : List Str → World × Status
  | [] => (w, Status.running)
  | line :: rest =>
    match parseLine w line with
    | (w1, Status.running) => runLines w1 rest
    | (w1, st) => (w1, st)

/-- The member function `compile`. -/
def compile (w : World) (code : Str) : World × Status := runLines w (getlines code)

/-- The state of a freshly constructed `SimpleCompiler` with nothing written yet. -/
def World.empty : World := { vars := [], out := [], err := [] }

/-! ## Notions the statements use -/

/-- The integer that a sign text (`""`, `"-"` or `"+"`) followed by a run of decimal digits
denotes. -/
def signedValue (sign ds : Str) : Int :=
  if sign = ['-'] then -(digitsValue ds : Int) else (digitsValue ds : Int)

/-- A line the dispatcher sends to its `exit` branch: after trimming it holds `exit` and none
of the keywords tested before it. -/
def isExitLine (line : Str) : Prop :=
  find (trim line) "let".toList = npos ∧ find (trim line) "if".toList = npos ∧
    find (trim line) "print".toList = npos ∧ find (trim line) "exit".toList ≠ npos

/-- The declaration line `let X = e;`. -/
def declLine (X e : Str) : Str := "let ".toList ++ X ++ " = ".toList ++ e ++ [';']

/-- The print line `print X;`. -/
def printLine (X : Str) : Str := "print ".toList ++ X ++ [';']

/-- The conditional line `if (A > B)` followed by the text `body`. -/
def ifLine (A B body : Str) : Str := "if (".toList ++ A ++ " > ".toList ++ B ++ [')'] ++ body

/-- The expression text `l op r`, with one space on each side of the operator. -/
def binExpr (l : Str) (op : Char) (r : Str) : Str := l ++ [' ', op, ' '] ++ r

/-- The C `isalpha` of the default locale. -/
def isalpha (c : Char) : Bool :=
  (65 ≤ c.toNat && c.toNat ≤ 90) || (97 ≤ c.toNat && c.toNat ≤ 122)

/-- A character of an identifier: a letter, a digit or the underscore. -/
def identChar (c : Char) : Bool := isalpha c || isdigit c || c.toNat = 95

/-- A token of an expression: a non-empty run of identifier characters, which is a variable
name or an unsigned literal. -/
def isToken (s : Str) : Bool := !s.isEmpty && s.all identChar

/-- A variable name: a token that does not start with a digit. -/
def isName (s : Str) : Bool :=
  isToken s && (match s with
    | c :: _ => !isdigit c
    | [] => false)

/-- The expression text `l op r` with the runs of blanks `p1` and `p2` (possibly empty) before
and after the operator. -/
def paddedExpr (l p1 : Str) (op : Char) (p2 r : Str) : Str := l ++ p1 ++ [op] ++ p2 ++ r

/-- The standard integer result of `x op y` for `op` among `+ - * /`, with the division
truncating toward zero. -/
def intOp (op : Char) (x y : Int) : Int :=
  if op = '+' then x + y else if op = '-' then x - y else if op = '*' then x * y
  else Int.tdiv x y

/-- The text left after removing the leading and the trailing spaces and tabs. -/
def stripBlanks (s : Str) : Str := (s.dropWhile isBlank).rdropWhile isBlank

/-- The store after a sequence of assignments `variables[k] = v`, first to last. -/
def Store.applyAssigns (m : Store) : List (Str × Int) → Store
  | [] => m
  | p :: ps => Store.applyAssigns (Store.assign m p.1 p.2) ps

/-- No name of the store is bound to the sentinel `-1`. -/
def Store.noSentinel (m : Store) : Prop := ∀ k, Store.find m k ≠ some (-1)

/-! ## Facts about the position searches -/

theorem findIdxAux_none (p : Char → Bool) (s : Str) (i : Nat)
    (h : ∀ c ∈ s, p c = false) : findIdxAux p s i = npos := by
  induction s generalizing i with
  | nil => rfl
  | cons c cs ih =>
    have hc : p c = false := h c (List.mem_cons_self _ _)
    simp only [findIdxAux, hc]
    exact ih (i + 1) (fun d hd => h d (List.mem_cons_of_mem _ hd))

theorem findIdxAux_hit (p : Char → Bool) (a : Str) (x : Char) (b : Str) (i : Nat)
    (h : ∀ c ∈ a, p c = false) (hx : p x = true) :
    findIdxAux p (a ++ x :: b) i = i + a.length := by
  induction a generalizing i with
  | nil => simp [findIdxAux, hx]
  | cons c cs ih =>
    have hc : p c = false := h c (List.mem_cons_self _ _)
    have e := ih (i + 1) (fun d hd => h d (List.mem_cons_of_mem _ hd))
    simp only [List.cons_append, findIdxAux, hc, List.length_cons, Bool.false_eq_true, if_false,
      List.append_eq]
    omega

theorem findIdxAux_lt_or (p : Char → Bool) (s : Str) (i : Nat) :
    findIdxAux p s i = npos ∨ (i ≤ findIdxAux p s i ∧ findIdxAux p s i < i + s.length) := by
  induction s generalizing i with
  | nil => exact Or.inl rfl
  | cons c cs ih =>
    simp only [findIdxAux, List.length_cons]
    by_cases hc : p c = true
    · simp only [hc, if_true]; right; omega
    · simp only [hc, Bool.false_eq_true, if_false]
      rcases ih (i + 1) with h | h
      · exact Or.inl h
      · right; omega

theorem findAux_single (x : Char) (s : Str) (i : Nat) :
    findAux [x] s i = findIdxAux (fun c => decide (c = x)) s i := by
  induction s generalizing i with
  | nil => simp [findAux, findIdxAux]
  | cons c cs ih =>
    simp only [findAux, findIdxAux, ih]
    by_cases hc : c = x
    · simp [hc, List.isPrefixOf]
    · have : (x == c) = false := by simpa using fun h => hc h.symm
      simp [hc, List.isPrefixOf, this]

theorem find_single_hit (a : Str) (x : Char) (b : Str) (h : x ∉ a) :
    find (a ++ x :: b) [x] = a.length := by
  unfold find
  rw [findAux_single, findIdxAux_hit _ a x b 0 _ (by simp)]
  · simp
  · intro c hc
    simp only [decide_eq_false_iff_not]
    rintro rfl
    exact h hc

theorem find_single_none (s : Str) (x : Char) (h : x ∉ s) : find s [x] = npos := by
  unfold find
  rw [findAux_single]
  apply findIdxAux_none
  intro c hc
  simp only [decide_eq_false_iff_not]
  rintro rfl
  exact h hc

theorem findAux_absent (pat s : Str) (i : Nat) (h : ¬ pat <:+: s) : findAux pat s i = npos := by
  induction s generalizing i with
  | nil =>
    have : pat ≠ [] := by
      rintro rfl
      exact h (List.nil_infix)
    simp [findAux, this]
  | cons c cs ih =>
    have h1 : pat.isPrefixOf (c :: cs) = false := by
      rw [Bool.eq_false_iff]
      intro hp
      exact h (List.isPrefixOf_iff_prefix.mp hp).isInfix
    have h2 : ¬ pat <:+: cs := fun hi => h (List.infix_cons hi)
    simp only [findAux, h1, Bool.false_eq_true, if_false]
    exact ih (i + 1) h2

theorem find_absent (s pat : Str) (h : ¬ pat <:+: s) : find s pat = npos :=
  findAux_absent pat s 0 h

theorem find_of_prefix (pat rest : Str) (c : Char) : find (c :: pat ++ rest) (c :: pat) = 0 := by
  have : (c :: pat).isPrefixOf (c :: (pat ++ rest)) = true :=
    List.isPrefixOf_iff_prefix.mpr ⟨rest, by simp⟩
  simp [find, findAux, this]

/-- A pattern that avoids the separator `x` occurs in `a ++ x :: b` only inside `a` or inside
`b`. -/
theorem infix_split (pat a b : Str) (x : Char) (hx : x ∉ pat)
    (h : pat <:+: a ++ x :: b) : pat <:+: a ∨ pat <:+: b := by
  induction a with
  | nil =>
    simp only [List.nil_append] at h
    rcases List.infix_cons_iff.mp h with hp | hi
    · rcases List.prefix_cons_iff.mp hp with rfl | ⟨t, rfl, _⟩
      · exact Or.inl (List.nil_infix)
      · exact absurd (List.mem_cons_self _ _) hx
    · exact Or.inr hi
  | cons c cs ih =>
    simp only [List.cons_append] at h
    rcases List.infix_cons_iff.mp h with hp | hi
    · left
      obtain ⟨t, ht⟩ := hp
      have key : ∀ (q u : Str), x ∉ q → ∀ t, q ++ t = u ++ x :: b → q <+: u := by
        intro q
        induction q with
        | nil => intro u _ _ _; exact List.nil_prefix
        | cons y ys ihq =>
          intro u hq t ht
          cases u with
          | nil =>
            simp only [List.cons_append, List.nil_append, List.cons.injEq] at ht
            exact absurd (ht.1 ▸ List.mem_cons_self _ _) hq
          | cons z zs =>
            simp only [List.cons_append, List.cons.injEq] at ht
            obtain ⟨rfl, ht2⟩ := ht
            have := ihq zs (fun hm => hq (List.mem_cons_of_mem _ hm)) t ht2
            exact (List.cons_prefix_cons).mpr ⟨rfl, this⟩
      exact (key pat (c :: cs) hx t ht).isInfix
    · rcases ih hi with h1 | h2
      · exact Or.inl (List.infix_cons h1)
      · exact Or.inr h2

/-! ## Facts about `trim` -/

theorem findIdxAux_takeWhile (p : Char → Bool) (s : Str) (i : Nat) (h : ∃ c ∈ s, p c = true) :
    findIdxAux p s i = i + (s.takeWhile (fun c => !p c)).length := by
  induction s generalizing i with
  | nil => simp at h
  | cons c cs ih =>
    by_cases hc : p c = true
    · simp [findIdxAux, hc]
    · have hcs : ∃ d ∈ cs, p d = true := by
        obtain ⟨d, hd, hp⟩ := h
        rcases List.mem_cons.mp hd with rfl | hd
        · exact absurd hp hc
        · exact ⟨d, hd, hp⟩
      have e := ih (i + 1) hcs
      simp only [findIdxAux, hc, Bool.false_eq_true, if_false, List.takeWhile_cons,
        Bool.not_eq_true] at e ⊢
      simp only [Bool.not_eq_true] at hc
      simp only [hc, Bool.not_false, if_true, List.length_cons]
      omega

theorem findLastAux_concat (p : Char → Bool) (l : Str) (c : Char) (i best : Nat) :
    findLastAux p (l ++ [c]) i best = if p c then i + l.length else findLastAux p l i best := by
  induction l generalizing i best with
  | nil => simp [findLastAux]
  | cons d ds ih =>
    simp only [List.cons_append, findLastAux, List.length_cons, List.append_eq]
    rw [ih]
    split
    · omega
    · rfl

theorem findLastAux_rdropWhile (p : Char → Bool) (s : Str) (i best : Nat) :
    findLastAux p s i best =
      if s.rdropWhile (fun c => !p c) = [] then best
      else i + (s.rdropWhile (fun c => !p c)).length - 1 := by
  induction s using List.reverseRecOn with
  | nil => simp [findLastAux]
  | append_singleton l c ih =>
    rw [findLastAux_concat, List.rdropWhile_concat]
    by_cases hc : p c = true
    · simp [hc]
    · simp only [Bool.not_eq_true] at hc
      simp [hc, ih]

theorem drop_length_takeWhile (q : Char → Bool) (s : Str) :
    s.drop (s.takeWhile q).length = s.dropWhile q := by
  induction s with
  | nil => rfl
  | cons c cs ih =>
    by_cases hc : q c = true
    · simp [List.takeWhile_cons, List.dropWhile_cons, hc, ih]
    · simp [List.takeWhile_cons, List.dropWhile_cons, hc]

theorem rdropWhile_append_of_ne_nil (q : Char → Bool) (a b : Str)
    (h : b.rdropWhile q ≠ []) : (a ++ b).rdropWhile q = a ++ b.rdropWhile q := by
  induction b using List.reverseRecOn with
  | nil => simp at h
  | append_singleton l c ih =>
    rw [← List.append_assoc, List.rdropWhile_concat, List.rdropWhile_concat]
    by_cases hc : q c = true
    · rw [List.rdropWhile_concat, if_pos hc] at h
      simp only [hc, if_true]
      exact ih h
    · simp [hc]

/-- The function `trim` strips the blanks at both ends (for a string of a size a
`std::string` can have). -/
theorem trim_eq (s : Str) (hlen : s.length < npos) :
    trim s = (s.dropWhile isBlank).rdropWhile isBlank := by
  by_cases hall : ∀ c ∈ s, isBlank c = true
  · have h1 : find_first_not_of s blanks = npos := by
      apply findIdxAux_none
      intro c hc
      have := hall c hc
      simp only [isBlank] at this
      simp [this]
    have h2 : s.dropWhile isBlank = [] := List.dropWhile_eq_nil_iff.mpr hall
    simp [trim, h1, h2]
  · have hex : ∃ c ∈ s, (fun c => !decide (c ∈ blanks)) c = true := by
      by_contra hne
      apply hall
      intro c hc
      by_contra hb
      apply hne
      refine ⟨c, hc, ?_⟩
      simp only [isBlank] at hb
      simpa using hb
    have hq : (fun c => !(fun c => !decide (c ∈ blanks)) c) = isBlank := by
      funext c
      simp [isBlank]
    have h1 : find_first_not_of s blanks = (s.takeWhile isBlank).length := by
      unfold find_first_not_of
      rw [findIdxAux_takeWhile _ s 0 hex, hq]
      simp
    have hd : s.dropWhile isBlank ≠ [] := by
      intro h
      exact hall (List.dropWhile_eq_nil_iff.mp h)
    have hr : (s.dropWhile isBlank).rdropWhile isBlank ≠ [] := by
      intro h
      have hh := List.rdropWhile_eq_nil_iff.mp h
      have := List.head_dropWhile_not isBlank s hd
      rw [hh _ (List.head_mem hd)] at this
      simp at this
    have hsplit : s.rdropWhile isBlank =
        s.takeWhile isBlank ++ (s.dropWhile isBlank).rdropWhile isBlank := by
      conv_lhs => rw [← List.takeWhile_append_dropWhile isBlank s]
      exact rdropWhile_append_of_ne_nil _ _ _ hr
    have hne : s.rdropWhile isBlank ≠ [] := by
      rw [hsplit]
      simp [hr]
    have hlen2 : (s.rdropWhile isBlank).length ≤ s.length :=
      (List.rdropWhile_prefix isBlank s).length_le
    have hpos : 0 < ((s.dropWhile isBlank).rdropWhile isBlank).length :=
      List.length_pos.mpr hr
    have h2 : find_last_not_of s blanks = (s.rdropWhile isBlank).length - 1 := by
      unfold find_last_not_of
      rw [findLastAux_rdropWhile, hq, if_neg hne]
      simp
    have hl := congrArg List.length hsplit
    simp only [List.length_append] at hl
    have e1 : (s.takeWhile isBlank).length ≠ npos := by
      unfold npos at hlen ⊢
      omega
    have e2 : (s.rdropWhile isBlank).length - 1 ≠ npos := by
      unfold npos at hlen ⊢
      omega
    have e3 : sizeAdd (sizeSub ((s.rdropWhile isBlank).length - 1)
        (s.takeWhile isBlank).length) 1 =
        ((s.dropWhile isBlank).rdropWhile isBlank).length := by
      unfold sizeAdd sizeSub
      unfold npos at hlen
      omega
    simp only [trim, h1, h2, e1, e2, or_self, if_false, e3, substrD, drop_length_takeWhile]
    exact (List.prefix_iff_eq_take.mp (List.rdropWhile_prefix isBlank _)).symm

theorem trim_infix (s : Str) (hlen : s.length < npos) : trim s <:+: s := by
  rw [trim_eq s hlen]
  exact (List.rdropWhile_prefix _ _).isInfix.trans (List.dropWhile_suffix _).isInfix

/-- A text that neither starts nor ends with a blank is its own `trim`. -/
theorem trim_self (s : Str) (hlen : s.length < npos)
    (hh : ∀ c, s.head? = some c → isBlank c = false)
    (hl : ∀ c, s.getLast? = some c → isBlank c = false) : trim s = s := by
  rw [trim_eq s hlen]
  have h1 : s.dropWhile isBlank = s := by
    cases s with
    | nil => rfl
    | cons c cs => simp [List.dropWhile_cons, hh c rfl]
  rw [h1, List.rdropWhile_eq_self_iff]
  intro hne
  have := hl (s.getLast hne) (List.getLast?_eq_getLast _ hne)
  simp [this]

/-! ## Facts about `std::stoi` -/

theorem isspace_of_isdigit (c : Char) (h : isdigit c = true) : isspace c = false := by
  simp only [isdigit, isspace, Bool.and_eq_true, decide_eq_true_eq, Bool.or_eq_false_iff,
    decide_eq_false_iff_not, Bool.and_eq_false_imp] at h ⊢
  omega

theorem dropWhile_isspace (ws x : Str) (hws : ∀ c ∈ ws, isspace c = true)
    (hx : ∀ c, x.head? = some c → isspace c = false) : (ws ++ x).dropWhile isspace = x := by
  rw [List.dropWhile_append_of_pos hws]
  cases x with
  | nil => rfl
  | cons c cs => simp [List.dropWhile_cons, hx c rfl]

theorem takeWhile_isdigit (ds rest : Str) (hds : ∀ c ∈ ds, isdigit c = true)
    (hr : ∀ c, rest.head? = some c → isdigit c = false) :
    (ds ++ rest).takeWhile isdigit = ds := by
  rw [List.takeWhile_append_of_pos hds]
  cases rest with
  | nil => simp
  | cons c cs => simp [List.takeWhile_cons, hr c rfl]

/-- What `std::stoi` returns on white space, an optional sign, a run of digits and any text
that does not go on with a digit. -/
theorem stoi_literal (ws sign ds rest : Str) (hws : ∀ c ∈ ws, isspace c = true)
    (hsign : sign = [] ∨ sign = ['-'] ∨ sign = ['+']) (hne : ds ≠ [])
    (hds : ∀ c ∈ ds, isdigit c = true) (hr : ∀ c, rest.head? = some c → isdigit c = false) :
    stoi (ws ++ sign ++ ds ++ rest) =
      if -2147483648 ≤ signedValue sign ds ∧ signedValue sign ds ≤ 2147483647
      then Stoi.ok (signedValue sign ds) else Stoi.outOfRange := by
  obtain ⟨d, ds', rfl⟩ := List.exists_cons_of_ne_nil hne
  have hd : isdigit d = true := hds d (List.mem_cons_self _ _)
  have hdm : d ≠ '-' := by rintro rfl; revert hd; decide
  have hdp : d ≠ '+' := by rintro rfl; revert hd; decide
  have h2 : (d :: (ds' ++ rest)).takeWhile isdigit = d :: ds' :=
    takeWhile_isdigit (d :: ds') rest hds hr
  have h1 : (ws ++ (sign ++ d :: (ds' ++ rest))).dropWhile isspace
      = sign ++ d :: (ds' ++ rest) := by
    apply dropWhile_isspace _ _ hws
    rcases hsign with rfl | rfl | rfl
    · intro c hc
      simp only [List.nil_append, List.head?_cons, Option.some.injEq] at hc
      exact hc ▸ isspace_of_isdigit d hd
    · intro c hc
      simp only [List.cons_append, List.nil_append, List.head?_cons, Option.some.injEq] at hc
      subst hc; decide
    · intro c hc
      simp only [List.cons_append, List.nil_append, List.head?_cons, Option.some.injEq] at hc
      subst hc; decide
  unfold stoi
  simp only [List.append_assoc, List.cons_append, h1]
  rcases hsign with rfl | rfl | rfl
  · simp [hdm, hdp, h2, signedValue]
  · simp [h2, signedValue]
  · simp [h2, signedValue]

/-- When no digit follows the white space and the optional sign, `std::stoi` throws
`std::invalid_argument`. -/
theorem stoi_invalid (ws sign rest : Str) (hws : ∀ c ∈ ws, isspace c = true)
    (hsign : sign = [] ∨ sign = ['-'] ∨ sign = ['+'])
    (hr : ∀ c, rest.head? = some c → isdigit c = false)
    (hr0 : sign = [] → ∀ c, rest.head? = some c → isspace c = false ∧ c ≠ '-' ∧ c ≠ '+') :
    stoi (ws ++ sign ++ rest) = Stoi.invalidArgument := by
  have h1 : (ws ++ (sign ++ rest)).dropWhile isspace = sign ++ rest := by
    apply dropWhile_isspace _ _ hws
    rcases hsign with rfl | rfl | rfl
    · intro c hc
      exact (hr0 rfl c hc).1
    · intro c hc
      simp only [List.cons_append, List.nil_append, List.head?_cons, Option.some.injEq] at hc
      subst hc; decide
    · intro c hc
      simp only [List.cons_append, List.nil_append, List.head?_cons, Option.some.injEq] at hc
      subst hc; decide
  have h2 : rest.takeWhile isdigit = [] := by
    cases rest with
    | nil => rfl
    | cons c cs => simp [List.takeWhile_cons, hr c rfl]
  unfold stoi
  simp only [List.append_assoc, h1]
  rcases hsign with rfl | rfl | rfl
  · cases rest with
    | nil => simp
    | cons c cs =>
      have := hr0 rfl c rfl
      simp [this.2.1, this.2.2, h2]
  · simp [h2]
  · simp [h2]

/-! ## Facts about the store and the evaluators -/

theorem Store.index_of_find (m : Store) (k : Str) (v : Int) (h : Store.find m k = some v) :
    Store.index m k = (v, m) := by
  simp [Store.index, h]

theorem Store.find_assign_same (m : Store) (k : Str) (v : Int) :
    Store.find (Store.assign m k v) k = some v := by
  induction m with
  | nil => simp [Store.assign, Store.find]
  | cons p m ih =>
    obtain ⟨k', v'⟩ := p
    by_cases hk : k' = k
    · simp [Store.assign, Store.find, hk]
    · simp [Store.assign, Store.find, hk, ih]

theorem Store.find_assign_other (m : Store) (k j : Str) (v : Int) (h : j ≠ k) :
    Store.find (Store.assign m k v) j = Store.find m j := by
  have hkj : ¬ k = j := fun e => h e.symm
  induction m with
  | nil => simp [Store.assign, Store.find, hkj]
  | cons p m ih =>
    obtain ⟨k', v'⟩ := p
    by_cases hk : k' = k
    · subst hk
      simp [Store.assign, Store.find, hkj]
    · by_cases hj : k' = j
      · subst hj
        simp [Store.assign, Store.find, hk]
      · simp [Store.assign, Store.find, hk, hj, ih]

theorem getValue_bound (w : World) (t : Str) (v : Int) (h : Store.find w.vars t = some v) :
    getValue w t = (w, Res.val v) := by
  simp [getValue, h, Store.index_of_find _ _ _ h]

theorem getValue_frame (w : World) (t : Str) :
    (getValue w t).1.vars = w.vars ∧ (getValue w t).1.out = w.out := by
  cases h : Store.find w.vars t with
  | some v => simp [getValue_bound w t v h]
  | none =>
    unfold getValue
    simp only [h, Option.isSome_none, Bool.false_eq_true, if_false]
    cases stoi t <;> simp

theorem applyOp_world (w : World) (op : Char) (a b : Int) : (applyOp w op a b).1 = w := by
  unfold applyOp
  repeat' split
  all_goals rfl

theorem evaluateExpression_frame (w : World) (e : Str) :
    (evaluateExpression w e).1.vars = w.vars ∧ (evaluateExpression w e).1.out = w.out := by
  by_cases hop : find_first_of e ['+', '-', '*', '/'] = npos
  · simp only [evaluateExpression, hop, ne_eq, not_true_eq_false, if_false]
    exact getValue_frame w e
  · simp only [evaluateExpression, hop, ne_eq, not_false_eq_true, if_true]
    cases substr e 0 (find_first_of e ['+', '-', '*', '/']) with
    | none => simp
    | some l =>
      cases substr e (sizeAdd (find_first_of e ['+', '-', '*', '/']) 1) npos with
      | none => simp
      | some r =>
        have hl := getValue_frame w (trim l)
        dsimp only
        rcases h1 : getValue w (trim l) with ⟨w1, a⟩
        rw [h1] at hl
        cases a with
        | fault f => exact hl
        | val lv =>
          have hr := getValue_frame w1 (trim r)
          dsimp only
          rcases h2 : getValue w1 (trim r) with ⟨w2, b⟩
          rw [h2] at hr
          cases b with
          | fault f => exact ⟨hr.1.trans hl.1, hr.2.trans hl.2⟩
          | val rv =>
            simp only
            split
            · rw [applyOp_world]
              exact ⟨hr.1.trans hl.1, hr.2.trans hl.2⟩
            · exact ⟨hr.1.trans hl.1, hr.2.trans hl.2⟩

theorem runLines_append (w : World) (pre rest : List Str) :
    runLines w (pre ++ rest) =
      match runLines w pre with
      | (w1, Status.running) => runLines w1 rest
      | r => r := by
  induction pre generalizing w with
  | nil => simp [runLines]
  | cons l ls ih =>
    simp only [List.cons_append, runLines]
    rcases h : parseLine w l with ⟨w1, st⟩
    cases st with
    | running => simpa using ih w1
    | exited c => simp
    | faulted f => simp

theorem find_nil_ne (pat : Str) (h : pat ≠ []) : find [] pat = npos := by
  simp [find, findAux, h]

theorem parseLine_exit (w : World) (line : Str) (h : isExitLine line) :
    parseLine w line =
      ({ w with out := w.out ++ "Exiting the program.".toList ++ ['\n'] }, Status.exited 0) := by
  obtain ⟨h1, h2, h3, h4⟩ := h
  have e1 : trim line ≠ [] := by
    intro e
    rw [e] at h4
    exact h4 (by decide)
  have e2 : trim line ≠ [';'] := by
    intro e
    rw [e] at h4
    exact h4 (by decide)
  simp only [parseLine, e1, e2, or_self, if_false, h1, h2, h3, h4, ne_eq, not_true_eq_false,
    not_false_eq_true, if_true]

/-! ## Canonical lines -/

theorem substr_mid (s a b c : Str) (pos len : Nat) (hs : s = a ++ (b ++ c))
    (hpos : pos = a.length) (hlen : len = b.length) : substr s pos len = some b := by
  subst hs hpos hlen
  simp [substr, substrD]

theorem substr_tail (s a b : Str) (pos len : Nat) (hs : s = a ++ b) (hpos : pos = a.length)
    (hlen : b.length ≤ len) : substr s pos len = some b := by
  subst hs hpos
  simp [substr, substrD, List.take_of_length_le hlen]

theorem trim_token_semicolon (t : Str) (d : Char) (hlen : (t ++ [d]).length < npos)
    (ht : ∀ c, t.head? = some c → isBlank c = false) (hd : isBlank d = false) :
    trim (t ++ [d]) = t ++ [d] := by
  apply trim_self _ hlen
  · intro c hc
    cases t with
    | nil =>
      simp only [List.nil_append, List.head?_cons, Option.some.injEq] at hc
      exact hc ▸ hd
    | cons x xs => exact ht c (by simpa using hc)
  · intro c hc
    simp only [List.getLast?_concat, Option.some.injEq] at hc
    exact hc ▸ hd

theorem removeSemicolons_append (t rest : Str) (h : ';' ∉ t) (hlen : t.length < npos) :
    removeSemicolons (t ++ ';' :: rest) = t := by
  have hf := find_single_hit t ';' rest h
  have hne : t.length ≠ npos := Nat.ne_of_lt hlen
  simp [removeSemicolons, hf, hne, substrD]

theorem rdropWhile_append_of_pos (q : Char → Bool) (t r : Str) (hr : ∀ c ∈ r, q c = true) :
    (t ++ r).rdropWhile q = t.rdropWhile q := by
  unfold List.rdropWhile
  rw [List.reverse_append, List.dropWhile_append_of_pos]
  intro c hc
  exact hr c (List.mem_reverse.mp hc)

/-- Trimming a blank-free token padded with blanks on both sides gives the token back. -/
theorem trim_pad (l t r : Str) (hl : ∀ c ∈ l, isBlank c = true) (hr : ∀ c ∈ r, isBlank c = true)
    (ht : ∀ c ∈ t, isBlank c = false) (hlen : (l ++ (t ++ r)).length < npos) :
    trim (l ++ (t ++ r)) = t := by
  rw [trim_eq _ hlen, List.dropWhile_append_of_pos hl]
  cases t with
  | nil =>
    have : r.dropWhile isBlank = [] := List.dropWhile_eq_nil_iff.mpr hr
    simp [this]
  | cons x xs =>
    have hx : isBlank x = false := ht x (List.mem_cons_self _ _)
    rw [List.cons_append, List.dropWhile_cons_of_neg (by simp [hx]), ← List.cons_append,
      rdropWhile_append_of_pos _ _ _ hr, List.rdropWhile_eq_self_iff]
    intro hne
    have := ht _ (List.getLast_mem hne)
    simp [this]

theorem declLine_eq (X e : Str) :
    declLine X e = 'l' :: 'e' :: 't' :: ' ' :: (X ++ ' ' :: '=' :: ' ' :: (e ++ [';'])) := by
  simp [declLine]

theorem printLine_eq (X : Str) :
    printLine X = 'p' :: 'r' :: 'i' :: 'n' :: 't' :: ' ' :: (X ++ [';']) := by
  simp [printLine]

/-- How the dispatcher treats the line `let X = e;` when `X` holds no `=` and `e` holds no `;`
and does not start with a blank: the expression `e` is evaluated and, unless it gives `-1`,
stored under `X`. -/
theorem parseLine_declaration (w : World) (X e : Str) (hX : '=' ∉ X) (he : ';' ∉ e)
    (heh : ∀ c, e.head? = some c → isBlank c = false)
    (hlen : (declLine X e).length < npos) :
    parseLine w (declLine X e) =
      match evaluateExpression w e with
      | (w1, Res.fault f) => (w1, Status.faulted f)
      | (w1, Res.val v) =>
        if v ≠ -1 then
          ({ w1 with
              vars := Store.assign w1.vars X v
              out := w1.out ++ "Variable ".toList ++ X ++ " set to ".toList
                ++ intToStr v ++ ['\n'] },
            Status.running)
        else (w1, Status.running) := by
  have hlen' : X.length + e.length + 8 < npos := by
    rw [declLine_eq] at hlen
    simp only [List.length_append, List.length_cons, List.length_nil] at hlen
    omega
  have ht : trim (declLine X e) = declLine X e := by
    apply trim_self _ hlen
    · intro c hc
      rw [declLine_eq] at hc
      simp only [List.head?_cons, Option.some.injEq] at hc
      subst hc; decide
    · intro c hc
      rw [declLine, List.getLast?_concat] at hc
      simp only [Option.some.injEq] at hc
      subst hc; decide
  have hne1 : declLine X e ≠ [] := by rw [declLine_eq]; simp
  have hne2 : declLine X e ≠ [';'] := by rw [declLine_eq]; simp
  have hlet : find (declLine X e) "let".toList = 0 := by
    rw [declLine_eq]
    exact find_of_prefix ['e', 't'] _ 'l'
  have hp : parseLine w (declLine X e) = handleDeclaration w (declLine X e) := by
    simp only [parseLine, ht, hne1, hne2, or_self, if_false, hlet]
    rfl
  have heq : find (declLine X e) ['='] = X.length + 5 := by
    have hd : declLine X e =
        ('l' :: 'e' :: 't' :: ' ' :: (X ++ [' '])) ++ '=' :: (' ' :: (e ++ [';'])) := by
      rw [declLine_eq]; simp
    rw [hd, find_single_hit]
    · simp
    · simp [hX]
  have hs1 : substr (declLine X e) 4 (sizeSub (X.length + 5) 5) = some X := by
    apply substr_mid _ ['l', 'e', 't', ' '] X (' ' :: '=' :: ' ' :: (e ++ [';']))
    · rw [declLine_eq]; rfl
    · rfl
    · unfold sizeSub; unfold npos at hlen'; omega
  have hs2 : substr (declLine X e) (sizeAdd (X.length + 5) 2) npos = some (e ++ [';']) := by
    apply substr_tail _ ('l' :: 'e' :: 't' :: ' ' :: (X ++ [' ', '=', ' '])) (e ++ [';'])
    · rw [declLine_eq]; simp
    · unfold sizeAdd; unfold npos at hlen'; simp; omega
    · simp; omega
  have ht2 : trim (e ++ [';']) = e ++ [';'] :=
    trim_token_semicolon e ';' (by simp; omega) heh (by decide)
  have hrs : removeSemicolons (e ++ [';']) = e := removeSemicolons_append e [] he (by omega)
  rw [hp]
  simp only [handleDeclaration, heq, hs1, hs2, ht2, hrs]

/-- A keyword free of blanks and semicolons that occurs neither in `print` nor in `X` does
not occur in the line `print X;`. -/
theorem keyword_not_in_printLine (kw X : Str) (h1 : ' ' ∉ kw) (h2 : ';' ∉ kw)
    (h3 : ¬ kw <:+: "print".toList) (hX : ¬ kw <:+: X) : ¬ kw <:+: printLine X := by
  rw [printLine_eq]
  intro h
  rcases infix_split kw "print".toList (X ++ [';']) ' ' h1 h with h4 | h4
  · exact h3 h4
  · rcases infix_split kw X [] ';' h2 h4 with h5 | h5
    · exact hX h5
    · exact h3 (h5.trans List.nil_infix)

/-- How the dispatcher treats the line `print X;` when `X` holds no `;`, does not start with
a blank and contains neither `let` nor `if`: the store is searched for `X`. -/
theorem parseLine_print (w : World) (X : Str) (hX : ';' ∉ X)
    (hXh : ∀ c, X.head? = some c → isBlank c = false)
    (hlet : ¬ "let".toList <:+: X) (hif : ¬ "if".toList <:+: X)
    (hlen : (printLine X).length < npos) :
    parseLine w (printLine X) =
      match Store.find w.vars X with
      | some v => ({ w with out := w.out ++ intToStr v ++ ['\n'] }, Status.running)
      | none =>
        ({ w with err := w.err ++ "Error: Variable ".toList ++ X ++ " not found!".toList
            ++ ['\n'] },
          Status.running) := by
  have hlen' : X.length + 7 < npos := by
    rw [printLine_eq] at hlen
    simp only [List.length_append, List.length_cons, List.length_nil] at hlen
    omega
  have ht : trim (printLine X) = printLine X := by
    apply trim_self _ hlen
    · intro c hc
      rw [printLine_eq] at hc
      simp only [List.head?_cons, Option.some.injEq] at hc
      subst hc; decide
    · intro c hc
      rw [printLine, List.getLast?_concat] at hc
      simp only [Option.some.injEq] at hc
      subst hc; decide
  have hne1 : printLine X ≠ [] := by rw [printLine_eq]; simp
  have hne2 : printLine X ≠ [';'] := by rw [printLine_eq]; simp
  have h1 : find (printLine X) "let".toList = npos :=
    find_absent _ _ (keyword_not_in_printLine _ X (by decide) (by decide) (by decide) hlet)
  have h2 : find (printLine X) "if".toList = npos :=
    find_absent _ _ (keyword_not_in_printLine _ X (by decide) (by decide) (by decide) hif)
  have h3 : find (printLine X) "print".toList = 0 := by
    rw [printLine_eq]
    exact find_of_prefix ['r', 'i', 'n', 't'] _ 'p'
  have hp : parseLine w (printLine X) = handlePrintStatement w (printLine X) := by
    simp only [parseLine, ht, hne1, hne2, or_self, if_false, h1, h2, h3, ne_eq,
      not_true_eq_false]
    rfl
  have hs : substr (printLine X) (sizeAdd 0 6) npos = some (X ++ [';']) := by
    apply substr_tail _ ['p', 'r', 'i', 'n', 't', ' '] (X ++ [';'])
    · rw [printLine_eq]; rfl
    · rfl
    · simp; omega
  have ht2 : trim (X ++ [';']) = X ++ [';'] :=
    trim_token_semicolon X ';' (by simp; omega) hXh (by decide)
  have hrs : removeSemicolons (X ++ [';']) = X := removeSemicolons_append X [] hX (by omega)
  rw [hp]
  simp only [handlePrintStatement, h3, hs, ht2, hrs]
  cases hf : Store.find w.vars X with
  | none => simp
  | some v => simp [Store.index_of_find _ _ _ hf]

theorem charAt_append (a : Str) (x : Char) (b : Str) : charAt (a ++ x :: b) a.length = x := by
  induction a with
  | nil => rfl
  | cons c cs ih => simpa [charAt] using ih

theorem ifLine_eq (A B body : Str) :
    ifLine A B body =
      'i' :: 'f' :: ' ' :: '(' :: (A ++ ' ' :: '>' :: ' ' :: (B ++ ')' :: body)) := by
  simp [ifLine]

theorem trim_ifLine (A B body : Str) (hlen : (ifLine A B body).length < npos) :
    trim (ifLine A B body) = ifLine A B (body.rdropWhile isBlank) := by
  rw [trim_eq _ hlen]
  have h1 : (ifLine A B body).dropWhile isBlank = ifLine A B body := by
    rw [ifLine_eq]
    exact List.dropWhile_cons_of_neg (by decide)
  have hP : ("if (".toList ++ A ++ " > ".toList ++ B ++ [')']).rdropWhile isBlank =
      "if (".toList ++ A ++ " > ".toList ++ B ++ [')'] :=
    List.rdropWhile_concat_neg _ _ _ (by decide)
  rw [h1]
  by_cases hb : body.rdropWhile isBlank = []
  · rw [hb]
    unfold ifLine
    rw [rdropWhile_append_of_pos _ _ _ (List.rdropWhile_eq_nil_iff.mp hb), hP]
    simp
  · unfold ifLine
    exact rdropWhile_append_of_ne_nil _ _ _ hb

theorem keyword_not_in_ifLine (kw A B body : Str) (h1 : ' ' ∉ kw) (h2 : '(' ∉ kw)
    (h3 : '>' ∉ kw) (h4 : ')' ∉ kw) (h5 : ¬ kw <:+: "if".toList)
    (hA : ¬ kw <:+: A) (hB : ¬ kw <:+: B) (hbody : ¬ kw <:+: body) :
    ¬ kw <:+: ifLine A B body := by
  rw [ifLine_eq]
  have hnil : ¬ kw <:+: [] := fun h => h5 (h.trans List.nil_infix)
  intro h
  rcases infix_split kw "if".toList _ ' ' h1 h with h | h
  · exact h5 h
  rcases infix_split kw [] _ '(' h2 h with h | h
  · exact hnil h
  rcases infix_split kw A _ ' ' h1 h with h | h
  · exact hA h
  rcases infix_split kw [] _ '>' h3 h with h | h
  · exact hnil h
  rcases infix_split kw [] _ ' ' h1 h with h | h
  · exact hnil h
  rcases infix_split kw B _ ')' h4 h with h | h
  · exact hB h
  · exact hbody h

/-- How the dispatcher treats the line `if (A > B)` followed by any text, when `A` and `B`
hold no blank, `)` or `>` and `let` occurs nowhere in the line. -/
theorem parseLine_if (w : World) (A B body : Str)
    (hA : ∀ c ∈ A, c ∉ [' ', '\t', ')', '>']) (hB : ∀ c ∈ B, c ∉ [' ', '\t', ')', '>'])
    (hlA : ¬ "let".toList <:+: A) (hlB : ¬ "let".toList <:+: B)
    (hlbody : ¬ "let".toList <:+: body)
    (hlen : (ifLine A B body).length < npos) :
    parseLine w (ifLine A B body) =
      if (evaluateCondition w A B '>').2 = true then
        ({ (evaluateCondition w A B '>').1 with
            vars := Store.assign (Store.index (evaluateCondition w A B '>').1.vars A).2 ['c']
              (Store.index (evaluateCondition w A B '>').1.vars A).1
            out := (evaluateCondition w A B '>').1.out ++ "Condition met: ".toList ++ A
              ++ [' ', '>', ' '] ++ B ++ ['\n'] },
          Status.running)
      else
        ({ (evaluateCondition w A B '>').1 with
            vars := Store.assign (Store.index (evaluateCondition w A B '>').1.vars B).2 ['c']
              (Store.index (evaluateCondition w A B '>').1.vars B).1
            out := (evaluateCondition w A B '>').1.out ++ "Condition not met: ".toList ++ A
              ++ [' ', '>', ' '] ++ B ++ ['\n'] },
          Status.running) := by
  have hlen' : A.length + B.length + body.length + 8 < npos := by
    rw [ifLine_eq] at hlen
    simp only [List.length_append, List.length_cons, List.length_nil] at hlen
    omega
  have hbl : (body.rdropWhile isBlank).length ≤ body.length :=
    (List.rdropWhile_prefix isBlank body).length_le
  generalize hb' : body.rdropWhile isBlank = body' at hbl
  have ht : trim (ifLine A B body) = ifLine A B body' := by
    rw [trim_ifLine _ _ _ hlen, hb']
  have hlb' : ¬ "let".toList <:+: body' := by
    intro h
    apply hlbody
    rw [← hb'] at h
    exact h.trans (List.rdropWhile_prefix isBlank body).isInfix
  have hne1 : ifLine A B body' ≠ [] := by rw [ifLine_eq]; simp
  have hne2 : ifLine A B body' ≠ [';'] := by rw [ifLine_eq]; simp
  have h1 : find (ifLine A B body') "let".toList = npos :=
    find_absent _ _ (keyword_not_in_ifLine _ A B body' (by decide) (by decide) (by decide)
      (by decide) (by decide) hlA hlB hlb')
  have h2 : find (ifLine A B body') "if".toList = 0 := by
    rw [ifLine_eq]
    exact find_of_prefix ['f'] _ 'i'
  have hp : parseLine w (ifLine A B body) = handleIfCondition w (ifLine A B body') := by
    simp only [parseLine, ht, hne1, hne2, or_self, if_false, h1, h2, ne_eq, not_true_eq_false]
    rfl
  have hAm : ∀ x ∈ [' ', '\t', ')', '>'], x ∉ A := fun x hx hm => hA x hm hx
  have hBm : ∀ x ∈ [' ', '\t', ')', '>'], x ∉ B := fun x hx hm => hB x hm hx
  have hf1 : find (ifLine A B body') ['('] = 3 := by
    rw [ifLine_eq]
    exact find_single_hit ['i', 'f', ' '] '(' _ (by decide)
  have hf2 : find (ifLine A B body') [')'] = A.length + B.length + 7 := by
    have hd : ifLine A B body' =
        ('i' :: 'f' :: ' ' :: '(' :: (A ++ ' ' :: '>' :: ' ' :: B)) ++ ')' :: body' := by
      rw [ifLine_eq]; simp
    rw [hd, find_single_hit]
    · simp; omega
    · simp [hAm ')' (by decide), hBm ')' (by decide)]
  have hs : substr (ifLine A B body') (sizeAdd 3 1)
      (sizeSub (A.length + B.length + 7) (sizeAdd 3 1)) = some (A ++ ' ' :: '>' :: ' ' :: B) := by
    apply substr_mid _ ['i', 'f', ' ', '('] _ (')' :: body')
    · rw [ifLine_eq]; simp
    · simp [sizeAdd]
    · unfold sizeSub sizeAdd; unfold npos at hlen'
      simp only [List.length_append, List.length_cons]
      omega
  have hg : find (A ++ ' ' :: '>' :: ' ' :: B) ['>'] = A.length + 1 := by
    have hd : A ++ ' ' :: '>' :: ' ' :: B = (A ++ [' ']) ++ '>' :: (' ' :: B) := by simp
    rw [hd, find_single_hit]
    · simp
    · simp [hAm '>' (by decide)]
  have hgn : A.length + 1 ≠ npos := by unfold npos at hlen' ⊢; omega
  have hs1 : substr (A ++ ' ' :: '>' :: ' ' :: B) 0 (A.length + 1) = some (A ++ [' ']) := by
    apply substr_mid _ [] _ ('>' :: ' ' :: B)
    · simp
    · rfl
    · simp
  have hs2 : substr (A ++ ' ' :: '>' :: ' ' :: B) (sizeAdd (A.length + 1) 1) npos =
      some (' ' :: B) := by
    apply substr_tail _ (A ++ [' ', '>']) _
    · simp
    · unfold sizeAdd; unfold npos at hlen'; simp; omega
    · simp; unfold npos at hlen' ⊢; omega
  have hblank : ∀ (t : Str), (∀ c ∈ t, c ∉ [' ', '\t', ')', '>']) → ∀ c ∈ t, isBlank c = false := by
    intro t ht c hc
    have := ht c hc
    simp only [List.mem_cons, List.mem_singleton, not_or, List.mem_nil_iff, or_false] at this
    simp [isBlank, blanks, this.1, this.2.1]
  have ht1 : trim (A ++ [' ']) = A := by
    have := trim_pad [] A [' '] (by simp) (by decide) (hblank A hA)
      (by simp; unfold npos at hlen' ⊢; omega)
    simpa using this
  have ht2 : trim (' ' :: B) = B := by
    have := trim_pad [' '] B [] (by decide) (by simp) (hblank B hB)
      (by simp; unfold npos at hlen' ⊢; omega)
    simpa using this
  have hc : charAt (A ++ ' ' :: '>' :: ' ' :: B) (A.length + 1) = '>' := by
    have hd : A ++ ' ' :: '>' :: ' ' :: B = (A ++ [' ']) ++ '>' :: (' ' :: B) := by simp
    rw [hd]
    have := charAt_append (A ++ [' ']) '>' (' ' :: B)
    simpa using this
  rw [hp]
  simp only [handleIfCondition, hf1, hf2, hs, hg, hgn, hs1, hs2, ht1, ht2, hc, ne_eq,
    not_false_eq_true, if_true, if_false]

theorem binExpr_eq (l : Str) (op : Char) (r : Str) :
    binExpr l op r = l ++ ' ' :: op :: ' ' :: r := by
  simp [binExpr]

/-- How the Expression Evaluator treats `l op r` when `l` holds no blank and no operator
character, `r` holds no blank and `op` is one of `+ - * /`: both operands are resolved, left
first, and the operator is applied unless one of them is `-1`. -/
theorem evaluateExpression_binExpr (w : World) (l r : Str) (op : Char)
    (hl : ∀ c ∈ l, c ∉ [' ', '\t', '+', '-', '*', '/']) (hr : ∀ c ∈ r, c ∉ [' ', '\t'])
    (hop : op ∈ ['+', '-', '*', '/']) (hlen : (binExpr l op r).length < npos) :
    evaluateExpression w (binExpr l op r) =
      match getValue w l with
      | (w1, Res.fault f) => (w1, Res.fault f)
      | (w1, Res.val leftValue) =>
        match getValue w1 r with
        | (w2, Res.fault f) => (w2, Res.fault f)
        | (w2, Res.val rightValue) =>
          if leftValue ≠ -1 ∧ rightValue ≠ -1 then applyOp w2 op leftValue rightValue
          else (w2, Res.val (-1)) := by
  have hlen' : l.length + r.length + 3 < npos := by
    rw [binExpr_eq] at hlen
    simp only [List.length_append, List.length_cons] at hlen
    omega
  have hd : binExpr l op r = (l ++ [' ']) ++ op :: (' ' :: r) := by
    rw [binExpr_eq]; simp
  have hpos : find_first_of (binExpr l op r) ['+', '-', '*', '/'] = l.length + 1 := by
    unfold find_first_of
    rw [hd, findIdxAux_hit]
    · simp
    · intro c hc
      rcases List.mem_append.mp hc with h | h
      · have := hl c h
        simp only [List.mem_cons, List.mem_singleton, not_or, List.mem_nil_iff,
          or_false] at this
        simp [this]
      · simp only [List.mem_singleton] at h
        subst h; decide
    · simpa using hop
  have hne : l.length + 1 ≠ npos := by unfold npos at hlen' ⊢; omega
  have hs1 : substr (binExpr l op r) 0 (l.length + 1) = some (l ++ [' ']) := by
    apply substr_mid _ [] _ (op :: ' ' :: r)
    · rw [hd]; simp
    · rfl
    · simp
  have hs2 : substr (binExpr l op r) (sizeAdd (l.length + 1) 1) npos = some (' ' :: r) := by
    apply substr_tail _ (l ++ [' ', op]) _
    · rw [hd]; simp
    · unfold sizeAdd; unfold npos at hlen'
      simp only [List.length_append, List.length_cons, List.length_nil]
      omega
    · simp only [List.length_cons]
      unfold npos at hlen' ⊢; omega
  have hbl : ∀ c ∈ l, isBlank c = false := by
    intro c hc
    have := hl c hc
    simp only [List.mem_cons, List.mem_singleton, not_or, List.mem_nil_iff, or_false] at this
    simp [isBlank, blanks, this.1, this.2.1]
  have hbr : ∀ c ∈ r, isBlank c = false := by
    intro c hc
    have := hr c hc
    simp only [List.mem_cons, List.mem_singleton, not_or, List.mem_nil_iff, or_false] at this
    simp [isBlank, blanks, this.1, this.2]
  have ht1 : trim (l ++ [' ']) = l := by
    have := trim_pad [] l [' '] (by simp) (by decide) hbl
      (by simp only [List.nil_append, List.length_append, List.length_cons, List.length_nil]
          omega)
    simpa using this
  have ht2 : trim (' ' :: r) = r := by
    have := trim_pad [' '] r [] (by decide) (by simp) hbr
      (by simp only [List.append_nil, List.length_append, List.length_cons, List.length_nil]
          omega)
    simpa using this
  have hc : charAt (binExpr l op r) (l.length + 1) = op := by
    rw [hd]
    have := charAt_append (l ++ [' ']) op (' ' :: r)
    simpa using this
  simp only [evaluateExpression, hpos, hne, hs1, hs2, ht1, ht2, hc, ne_eq, not_false_eq_true,
    if_true]

theorem paddedExpr_eq (l p1 : Str) (op : Char) (p2 r : Str) :
    paddedExpr l p1 op p2 r = (l ++ p1) ++ op :: (p2 ++ r) := by
  simp [paddedExpr]

/-- How the Expression Evaluator treats `l op r` with any blanks around the operator, when
`l` holds no blank and no operator character, `r` holds no blank and `op` is one of
`+ - * /`: both operands are resolved, left first, and the operator is applied unless one of
them is `-1`. -/
theorem evaluateExpression_padded (w : World) (l p1 p2 r : Str) (op : Char)
    (hl : ∀ c ∈ l, c ∉ [' ', '\t', '+', '-', '*', '/']) (hr : ∀ c ∈ r, c ∉ [' ', '\t'])
    (hp1 : ∀ c ∈ p1, isBlank c = true) (hp2 : ∀ c ∈ p2, isBlank c = true)
    (hop : op ∈ ['+', '-', '*', '/']) (hlen : (paddedExpr l p1 op p2 r).length < npos) :
    evaluateExpression w (paddedExpr l p1 op p2 r) =
      match getValue w l with
      | (w1, Res.fault f) => (w1, Res.fault f)
      | (w1, Res.val leftValue) =>
        match getValue w1 r with
        | (w2, Res.fault f) => (w2, Res.fault f)
        | (w2, Res.val rightValue) =>
          if leftValue ≠ -1 ∧ rightValue ≠ -1 then applyOp w2 op leftValue rightValue
          else (w2, Res.val (-1)) := by
  have hd := paddedExpr_eq l p1 op p2 r
  have hlen' : l.length + p1.length + p2.length + r.length + 1 < npos := by
    rw [hd] at hlen
    simp only [List.length_append, List.length_cons] at hlen
    omega
  have hpos : find_first_of (paddedExpr l p1 op p2 r) ['+', '-', '*', '/'] =
      (l ++ p1).length := by
    unfold find_first_of
    rw [hd, findIdxAux_hit]
    · simp
    · intro c hc
      rcases List.mem_append.mp hc with h | h
      · have := hl c h
        simp only [List.mem_cons, List.mem_singleton, not_or, List.mem_nil_iff,
          or_false] at this
        simp [this]
      · have hb := hp1 c h
        simp only [isBlank, blanks, List.mem_cons, List.mem_singleton, List.mem_nil_iff,
          or_false, decide_eq_true_eq] at hb
        rcases hb with rfl | rfl <;> decide
    · simpa using hop
  have hne : (l ++ p1).length ≠ npos := by
    simp only [List.length_append]
    unfold npos at hlen' ⊢; omega
  have hs1 : substr (paddedExpr l p1 op p2 r) 0 (l ++ p1).length = some (l ++ p1) := by
    apply substr_mid _ [] _ (op :: (p2 ++ r))
    · rw [hd]; simp
    · rfl
    · rfl
  have hs2 : substr (paddedExpr l p1 op p2 r) (sizeAdd (l ++ p1).length 1) npos =
      some (p2 ++ r) := by
    apply substr_tail _ (l ++ p1 ++ [op]) _
    · rw [hd]; simp
    · unfold sizeAdd; unfold npos at hlen'
      simp only [List.length_append, List.length_cons, List.length_nil]
      omega
    · simp only [List.length_append]
      unfold npos at hlen' ⊢; omega
  have hbl : ∀ c ∈ l, isBlank c = false := by
    intro c hc
    have := hl c hc
    simp only [List.mem_cons, List.mem_singleton, not_or, List.mem_nil_iff, or_false] at this
    simp [isBlank, blanks, this.1, this.2.1]
  have hbr : ∀ c ∈ r, isBlank c = false := by
    intro c hc
    have := hr c hc
    simp only [List.mem_cons, List.mem_singleton, not_or, List.mem_nil_iff, or_false] at this
    simp [isBlank, blanks, this.1, this.2]
  have ht1 : trim (l ++ p1) = l := by
    have := trim_pad [] l p1 (by simp) hp1 hbl
      (by simp only [List.nil_append, List.length_append]
          omega)
    simpa using this
  have ht2 : trim (p2 ++ r) = r := by
    have := trim_pad p2 r [] hp2 (by simp) hbr
      (by simp only [List.append_nil, List.length_append]
          omega)
    simpa using this
  have hc : charAt (paddedExpr l p1 op p2 r) (l ++ p1).length = op := by
    rw [hd]
    exact charAt_append (l ++ p1) op (p2 ++ r)
  simp only [evaluateExpression, hpos, hne, hs1, hs2, ht1, ht2, hc, ne_eq, not_false_eq_true,
    if_true]

theorem isdigit_not_mem (c : Char) (h : isdigit c = true) (bad : Str)
    (hb : ∀ d ∈ bad, isdigit d = false) : c ∉ bad := by
  intro hm
  rw [hb c hm] at h
  exact Bool.false_ne_true h

/-- An unbound run of digits whose value fits an `int` resolves to that value. -/
theorem getValue_digits (w : World) (ds : Str) (hne : ds ≠ [])
    (hds : ∀ c ∈ ds, isdigit c = true) (hrange : digitsValue ds ≤ 2147483647)
    (hfree : Store.find w.vars ds = none) :
    getValue w ds = (w, Res.val (digitsValue ds)) := by
  have hs := stoi_literal [] [] ds [] (by simp) (Or.inl rfl) hne hds (by simp)
  have hv : signedValue [] ds = (digitsValue ds : Int) := by simp [signedValue]
  have hr : -2147483648 ≤ (digitsValue ds : Int) ∧ (digitsValue ds : Int) ≤ 2147483647 := by
    constructor <;> omega
  rw [hv, if_pos hr] at hs
  simp only [List.append_nil, List.nil_append] at hs
  simp [getValue, hfree, hs]

/-- An unbound run of digits is, as an expression, a single token. -/
theorem evaluateExpression_digits (w : World) (ds : Str) (hne : ds ≠ [])
    (hds : ∀ c ∈ ds, isdigit c = true) (hrange : digitsValue ds ≤ 2147483647)
    (hfree : Store.find w.vars ds = none) :
    evaluateExpression w ds = (w, Res.val (digitsValue ds)) := by
  have hpos : find_first_of ds ['+', '-', '*', '/'] = npos := by
    apply findIdxAux_none
    intro c hc
    have := isdigit_not_mem c (hds c hc) ['+', '-', '*', '/'] (by decide)
    simpa using this
  simp only [evaluateExpression, hpos, ne_eq, not_true_eq_false, if_false]
  exact getValue_digits w ds hne hds hrange hfree

theorem wrapInt_of_range (z : Int) (h1 : -2147483648 ≤ z) (h2 : z ≤ 2147483647) :
    wrapInt z = z := by
  unfold wrapInt
  omega

theorem identChar_not_mem (c : Char) (h : identChar c = true) (bad : Str)
    (hb : ∀ d ∈ bad, identChar d = false) : c ∉ bad := by
  intro hm
  rw [hb c hm] at h
  exact Bool.false_ne_true h

theorem isToken_iff (s : Str) : isToken s = true ↔ s ≠ [] ∧ ∀ c ∈ s, identChar c = true := by
  cases s <;> simp [isToken]

theorem isName_iff (s : Str) :
    isName s = true ↔ ∃ c cs, s = c :: cs ∧ isdigit c = false ∧ ∀ d ∈ c :: cs, identChar d = true := by
  cases s with
  | nil => simp [isName, isToken]
  | cons c cs =>
    simp only [isName, isToken, List.isEmpty_cons, Bool.not_false, Bool.true_and,
      Bool.and_eq_true, Bool.not_eq_true', List.all_eq_true]
    constructor
    · rintro ⟨h1, h2⟩
      exact ⟨c, cs, rfl, h2, h1⟩
    · rintro ⟨c', cs', h0, h1, h2⟩
      cases h0
      exact ⟨h2, h1⟩

theorem isspace_of_identChar (c : Char) (h : identChar c = true) : isspace c = false := by
  simp only [identChar, isalpha, isdigit, isspace, Bool.or_eq_true, Bool.and_eq_true,
    decide_eq_true_eq, Bool.or_eq_false_iff, decide_eq_false_iff_not,
    Bool.and_eq_false_imp] at h ⊢
  omega

/-- An unbound variable name resolves to `-1`, with a diagnostic, and leaves the store and
standard output as they were. -/
theorem getValue_unbound_name (w : World) (V : Str) (hV : isName V = true)
    (hfree : Store.find w.vars V = none) :
    getValue w V =
      ({ w with err := w.err ++ "Error: Invalid argument: ".toList ++ V ++ ['\n'] },
        Res.val (-1)) := by
  obtain ⟨c, cs, rfl, hc, hall⟩ := (isName_iff V).mp hV
  have hic : identChar c = true := hall c (List.mem_cons_self _ _)
  have hs := stoi_invalid [] [] (c :: cs) (by simp) (Or.inl rfl)
    (by intro d hd
        simp only [List.head?_cons, Option.some.injEq] at hd
        exact hd ▸ hc)
    (by intro _ d hd
        simp only [List.head?_cons, Option.some.injEq] at hd
        subst hd
        refine ⟨isspace_of_identChar _ hic, ?_, ?_⟩
        · rintro rfl; revert hic; decide
        · rintro rfl; revert hic; decide)
  simp only [List.append_nil, List.nil_append] at hs
  simp only [getValue, hfree, Option.isSome_none, Bool.false_eq_true, if_false, hs]

/-- An expression that mentions an unbound variable name, alone or as either operand of one
operator with any blanks around it, never evaluates to a value other than `-1`. -/
theorem evaluateExpression_unbound_name (w : World) (V T e p1 p2 : Str) (op : Char)
    (hV : isName V = true) (hT : isToken T = true) (hop : op ∈ ['+', '-', '*', '/'])
    (hp1 : ∀ c ∈ p1, isBlank c = true) (hp2 : ∀ c ∈ p2, isBlank c = true)
    (hfree : Store.find w.vars V = none)
    (he : e = V ∨ e = paddedExpr V p1 op p2 T ∨ e = paddedExpr T p1 op p2 V)
    (hlen : e.length < npos) (w1 : World) (v : Int)
    (hev : evaluateExpression w e = (w1, Res.val v)) : v = -1 := by
  obtain ⟨hVne, hVall⟩ := (isToken_iff V).mp (by
    simp only [isName, Bool.and_eq_true] at hV
    exact hV.1)
  obtain ⟨hTne, hTall⟩ := (isToken_iff T).mp hT
  have hVl : ∀ c ∈ V, c ∉ [' ', '\t', '+', '-', '*', '/'] := fun c hc =>
    identChar_not_mem c (hVall c hc) _ (by decide)
  have hTl : ∀ c ∈ T, c ∉ [' ', '\t', '+', '-', '*', '/'] := fun c hc =>
    identChar_not_mem c (hTall c hc) _ (by decide)
  have hVr : ∀ c ∈ V, c ∉ [' ', '\t'] := fun c hc =>
    identChar_not_mem c (hVall c hc) _ (by decide)
  have hTr : ∀ c ∈ T, c ∉ [' ', '\t'] := fun c hc =>
    identChar_not_mem c (hTall c hc) _ (by decide)
  rcases he with rfl | rfl | rfl
  · have hpos : find_first_of e ['+', '-', '*', '/'] = npos := by
      apply findIdxAux_none
      intro c hc
      have := identChar_not_mem c (hVall c hc) ['+', '-', '*', '/'] (by decide)
      simpa using this
    simp only [evaluateExpression, hpos, ne_eq, not_true_eq_false, if_false,
      getValue_unbound_name w e hV hfree, Prod.mk.injEq, Res.val.injEq] at hev
    exact hev.2.symm
  · rw [evaluateExpression_padded w V p1 p2 T op hVl hTr hp1 hp2 hop hlen,
      getValue_unbound_name w V hV hfree] at hev
    dsimp only at hev
    rcases hg : getValue
        { w with err := w.err ++ "Error: Invalid argument: ".toList ++ V ++ ['\n'] } T
      with ⟨w2, r⟩
    rw [hg] at hev
    cases r with
    | fault f => simp at hev
    | val rv =>
      simp only [ne_eq, not_true_eq_false, false_and, if_false, Prod.mk.injEq,
        Res.val.injEq] at hev
      exact hev.2.symm
  · rw [evaluateExpression_padded w T p1 p2 V op hTl hVr hp1 hp2 hop hlen] at hev
    rcases hg : getValue w T with ⟨w2, r⟩
    rw [hg] at hev
    have hfr := getValue_frame w T
    rw [hg] at hfr
    cases r with
    | fault f => simp at hev
    | val lv =>
      have hfree2 : Store.find w2.vars V = none := by
        have : w2.vars = w.vars := hfr.1
        rw [this]
        exact hfree
      dsimp only at hev
      rw [getValue_unbound_name w2 V hV hfree2] at hev
      simp only [ne_eq, not_true_eq_false, and_false, if_false, Prod.mk.injEq,
        Res.val.injEq] at hev
      exact hev.2.symm

/-! ## What a line can do to the store -/

theorem evaluateCondition_world (w : World) (a b : Str) (op : Char) :
    (evaluateCondition w a b op).1 = w := by
  unfold evaluateCondition
  cases h1 : Store.find w.vars a with
  | none => simp
  | some v1 =>
    cases h2 : Store.find w.vars b with
    | none => simp
    | some v2 =>
      simp only [Option.isSome_some, and_self, if_true, Store.index_of_find _ _ _ h1,
        Store.index_of_find _ _ _ h2]
      repeat' split
      all_goals rfl

theorem Store.index_assigns (m : Store) (k t : Str) :
    ∃ ops, Store.assign (Store.index m k).2 t (Store.index m k).1 = Store.applyAssigns m ops ∧
      (Store.noSentinel m → ∀ p ∈ ops, p.2 ≠ -1) := by
  cases h : Store.find m k with
  | some v =>
    refine ⟨[(t, v)], by simp [Store.index, h, Store.applyAssigns], ?_⟩
    intro hm p hp
    simp only [List.mem_singleton] at hp
    subst hp
    intro hv
    exact hm k (by rw [h]; exact congrArg some hv)
  | none =>
    refine ⟨[(k, 0), (t, 0)], by simp [Store.index, h, Store.applyAssigns], ?_⟩
    intro _ p hp
    simp only [List.mem_cons, List.mem_singleton, List.mem_nil_iff, or_false] at hp
    rcases hp with rfl | rfl
    · show (0 : Int) ≠ -1
      decide
    · show (0 : Int) ≠ -1
      decide

theorem handleIfCondition_assigns (w : World) (line : Str) :
    ∃ ops, (handleIfCondition w line).1.vars = Store.applyAssigns w.vars ops ∧
      (Store.noSentinel w.vars → ∀ p ∈ ops, p.2 ≠ -1) := by
  have nil : ∃ ops, w.vars = Store.applyAssigns w.vars ops ∧
      (Store.noSentinel w.vars → ∀ p ∈ ops, p.2 ≠ -1) := ⟨[], rfl, fun _ _ hp => by simp at hp⟩
  unfold handleIfCondition
  dsimp only
  cases substr line (sizeAdd (find line ['(']) 1)
      (sizeSub (find line [')']) (sizeAdd (find line ['(']) 1)) with
  | none => exact nil
  | some cond =>
    dsimp only
    generalize (if find cond ['>'] = npos then find cond ['<'] else find cond ['>']) = opPos
    by_cases hop : opPos = npos
    · simp only [hop, ne_eq, not_true_eq_false, if_false]
      exact nil
    · simp only [ne_eq, hop, not_false_eq_true, if_true]
      cases substr cond 0 opPos with
      | none => exact nil
      | some l =>
        cases substr cond (sizeAdd opPos 1) npos with
        | none => exact nil
        | some r =>
          dsimp only
          simp only [evaluateCondition_world]
          split
          · exact Store.index_assigns w.vars (trim l) ['c']
          · exact Store.index_assigns w.vars (trim r) ['c']

theorem handlePrintStatement_vars (w : World) (line : Str) :
    (handlePrintStatement w line).1.vars = w.vars := by
  unfold handlePrintStatement
  dsimp only
  cases substr line (sizeAdd (find line "print".toList) 6) npos with
  | none => rfl
  | some t =>
    dsimp only
    cases h : Store.find w.vars (removeSemicolons (trim t)) with
    | none => simp
    | some v => simp [Store.index_of_find _ _ _ h]

theorem handleDeclaration_assigns (w : World) (line : Str) :
    ∃ ops, (handleDeclaration w line).1.vars = Store.applyAssigns w.vars ops ∧
      (Store.noSentinel w.vars → ∀ p ∈ ops, p.2 ≠ -1) := by
  have nil : ∃ ops, w.vars = Store.applyAssigns w.vars ops ∧
      (Store.noSentinel w.vars → ∀ p ∈ ops, p.2 ≠ -1) := ⟨[], rfl, fun _ _ hp => by simp at hp⟩
  unfold handleDeclaration
  dsimp only
  cases substr line 4 (sizeSub (find line ['=']) 5) with
  | none => exact nil
  | some varName =>
    cases substr line (sizeAdd (find line ['=']) 2) npos with
    | none => exact nil
    | some valueStr =>
      dsimp only
      have hf := evaluateExpression_frame w (removeSemicolons (trim valueStr))
      rcases hev : evaluateExpression w (removeSemicolons (trim valueStr)) with ⟨w1, r⟩
      rw [hev] at hf
      have hv1 : w1.vars = w.vars := hf.1
      cases r with
      | fault f =>
        dsimp only
        rw [hv1]
        exact nil
      | val v =>
        dsimp only
        split
        · rename_i hv
          refine ⟨[(varName, v)], by simp [Store.applyAssigns, hv1], ?_⟩
          intro _ p hp
          simp only [List.mem_singleton] at hp
          subst hp
          exact hv
        · rw [hv1]
          exact nil

/-- What one line can do to the store: a sequence of assignments, none of the value `-1`
when the store holds no `-1` before. -/
theorem parseLine_assigns (w : World) (line : Str) :
    ∃ ops, (parseLine w line).1.vars = Store.applyAssigns w.vars ops ∧
      (Store.noSentinel w.vars → ∀ p ∈ ops, p.2 ≠ -1) := by
  have nil : ∃ ops, w.vars = Store.applyAssigns w.vars ops ∧
      (Store.noSentinel w.vars → ∀ p ∈ ops, p.2 ≠ -1) := ⟨[], rfl, fun _ _ hp => by simp at hp⟩
  unfold parseLine
  dsimp only
  split
  · exact nil
  · split
    · exact handleDeclaration_assigns w (trim line)
    · split
      · exact handleIfCondition_assigns w (trim line)
      · split
        · rw [handlePrintStatement_vars]
          exact nil
        · split
          · exact nil
          · exact nil

theorem Store.bound_assign (m : Store) (k j : Str) (v : Int)
    (h : (Store.find m k).isSome = true) : (Store.find (Store.assign m j v) k).isSome = true := by
  by_cases hk : k = j
  · subst hk
    rw [Store.find_assign_same]
    rfl
  · rw [Store.find_assign_other _ _ _ _ hk]
    exact h

theorem Store.bound_applyAssigns (m : Store) (ops : List (Str × Int)) (k : Str)
    (h : (Store.find m k).isSome = true) :
    (Store.find (Store.applyAssigns m ops) k).isSome = true := by
  induction ops generalizing m with
  | nil => exact h
  | cons p ps ih => exact ih _ (Store.bound_assign m k p.1 p.2 h)

theorem Store.noSentinel_assign (m : Store) (j : Str) (v : Int) (hm : Store.noSentinel m)
    (hv : v ≠ -1) : Store.noSentinel (Store.assign m j v) := by
  intro k
  by_cases hk : k = j
  · subst hk
    rw [Store.find_assign_same]
    intro h
    exact hv (Option.some.inj h)
  · rw [Store.find_assign_other _ _ _ _ hk]
    exact hm k

theorem Store.noSentinel_applyAssigns (m : Store) (ops : List (Str × Int))
    (hm : Store.noSentinel m) (hops : ∀ p ∈ ops, p.2 ≠ -1) :
    Store.noSentinel (Store.applyAssigns m ops) := by
  induction ops generalizing m with
  | nil => exact hm
  | cons p ps ih =>
    exact ih _ (Store.noSentinel_assign m p.1 p.2 hm (hops p (List.mem_cons_self _ _)))
      (fun q hq => hops q (List.mem_cons_of_mem _ hq))

theorem parseLine_bound (w : World) (line k : Str) (h : (Store.find w.vars k).isSome = true) :
    (Store.find (parseLine w line).1.vars k).isSome = true := by
  obtain ⟨ops, he, _⟩ := parseLine_assigns w line
  rw [he]
  exact Store.bound_applyAssigns _ _ _ h

theorem parseLine_noSentinel (w : World) (line : Str) (h : Store.noSentinel w.vars) :
    Store.noSentinel (parseLine w line).1.vars := by
  obtain ⟨ops, he, hs⟩ := parseLine_assigns w line
  rw [he]
  exact Store.noSentinel_applyAssigns _ _ h (hs h)

theorem runLines_noSentinel (w : World) (lines : List Str) (h : Store.noSentinel w.vars) :
    Store.noSentinel (runLines w lines).1.vars := by
  induction lines generalizing w with
  | nil => exact h
  | cons l ls ih =>
    have h1 := parseLine_noSentinel w l h
    simp only [runLines]
    rcases hp : parseLine w l with ⟨w1, st⟩
    rw [hp] at h1
    cases st with
    | running => exact ih w1 h1
    | exited c => exact h1
    | faulted f => exact h1

/-! ## Line segmentation and the conditional branch -/

theorem parseLine_conditional (w : World) (line : Str)
    (hlet : find (trim line) "let".toList = npos) (hif : find (trim line) "if".toList ≠ npos) :
    parseLine w line = handleIfCondition w (trim line) := by
  have e1 : trim line ≠ [] := by
    intro e
    rw [e] at hif
    exact hif (by decide)
  have e2 : trim line ≠ [';'] := by
    intro e
    rw [e] at hif
    exact hif (by decide)
  simp only [parseLine, e1, e2, or_self, if_false, hlet, hif, ne_eq, not_true_eq_false,
    not_false_eq_true, if_true]

/-! ## The claims -/

/-- C1, as stated, fails for a name that contains a keyword, for a negative literal and for a
literal that is itself bound as a name. After `let letter = 5;` the line `print letter;` is
taken for a declaration and writes nothing to standard output. After `let x = -5;` nothing is
stored and `print x;` writes only a diagnostic. After `if (5 > 3) {` the token `3` is bound to
0, so `let x = 3;` followed by `print x;` writes `0`. -/
theorem declaration_print_not_always :
    (parseLine (parseLine World.empty (declLine "letter".toList ['5'])).1
        (printLine "letter".toList)).1.out =
        (parseLine World.empty (declLine "letter".toList ['5'])).1.out ∧
      (runLines World.empty [declLine ['x'] ['-', '5'], printLine ['x']]).1.out = [] ∧
      (runLines World.empty ["if (5 > 3) \x7b".toList, declLine ['x'] ['3'], printLine ['x']]).1.out =
        "Condition not met: 5 > 3".toList ++ ['\n'] ++ "Variable x set to 0".toList ++ ['\n']
          ++ ['0', '\n'] := by
  decide

/-- C1, amended: let the name `X` hold no blank, tab, `=` or `;` and contain neither `let`
nor `if`, and let the literal be a non-empty run of decimal digits whose value `n` fits an
`int` and which is not itself bound as a name in the starting store. Then `let X = n;` binds
`X` to `n` and writes its confirmation, and the following `print X;` writes exactly `n` and a
line break to standard output, nothing to the error stream, and leaves the process running.
The line is taken to be shorter than `npos`, as every `std::string` is. -/
theorem declaration_print_roundtrip (w : World) (X lit : Str)
    (hX : ∀ c ∈ X, c ∉ [' ', '\t', '=', ';'])
    (hlet : ¬ "let".toList <:+: X) (hif : ¬ "if".toList <:+: X)
    (hne : lit ≠ []) (hds : ∀ c ∈ lit, isdigit c = true)
    (hrange : digitsValue lit ≤ 2147483647) (hfree : Store.find w.vars lit = none)
    (hlen : (declLine X lit).length < npos) :
    parseLine w (declLine X lit) =
        ({ w with
            vars := Store.assign w.vars X (digitsValue lit)
            out := w.out ++ "Variable ".toList ++ X ++ " set to ".toList
              ++ intToStr (digitsValue lit) ++ ['\n'] },
          Status.running) ∧
      parseLine (parseLine w (declLine X lit)).1 (printLine X) =
        ({ (parseLine w (declLine X lit)).1 with
            out := (parseLine w (declLine X lit)).1.out ++ intToStr (digitsValue lit)
              ++ ['\n'] },
          Status.running) := by
  have hXm : ∀ x ∈ [' ', '\t', '=', ';'], x ∉ X := fun x hx hm => hX x hm hx
  have hlen' : X.length + lit.length + 8 < npos := by
    rw [declLine_eq] at hlen
    simp only [List.length_append, List.length_cons, List.length_nil] at hlen
    omega
  have hXh : ∀ c, X.head? = some c → isBlank c = false := by
    intro c hc
    have hm : c ∈ X := List.mem_of_mem_head? hc
    have := hX c hm
    simp only [List.mem_cons, List.mem_singleton, not_or, List.mem_nil_iff, or_false] at this
    simp [isBlank, blanks, this.1, this.2.1]
  have hlh : ∀ c, lit.head? = some c → isBlank c = false := by
    intro c hc
    have hd := hds c (List.mem_of_mem_head? hc)
    have := isdigit_not_mem c hd blanks (by decide)
    simpa [isBlank] using this
  have hsemi : ';' ∉ lit := fun hm => by
    have := hds ';' hm
    revert this; decide
  have h1 : parseLine w (declLine X lit) =
      ({ w with
          vars := Store.assign w.vars X (digitsValue lit)
          out := w.out ++ "Variable ".toList ++ X ++ " set to ".toList
            ++ intToStr (digitsValue lit) ++ ['\n'] },
        Status.running) := by
    rw [parseLine_declaration w X lit (hXm '=' (by decide)) hsemi hlh hlen,
      evaluateExpression_digits w lit hne hds hrange hfree]
    have : ¬ ((digitsValue lit : Int) = -1) := by omega
    simp only [ne_eq, this, not_false_eq_true, if_true]
  refine ⟨h1, ?_⟩
  rw [h1]
  have hplen : (printLine X).length < npos := by
    rw [printLine_eq]
    simp only [List.length_append, List.length_cons, List.length_nil]
    omega
  rw [parseLine_print _ X (hXm ';' (by decide)) hXh hlet hif hplen]
  simp only [Store.find_assign_same]

/-- The round trip of C1 on `let x = 42;` and `print x;` from the empty store. -/
theorem declaration_print_roundtrip_witness :
    parseLine World.empty (declLine ['x'] ['4', '2']) =
        ({ vars := [(['x'], 42)], out := "Variable x set to 42".toList ++ ['\n'], err := [] },
          Status.running) ∧
      parseLine (parseLine World.empty (declLine ['x'] ['4', '2'])).1 (printLine ['x']) =
        ({ (parseLine World.empty (declLine ['x'] ['4', '2'])).1 with
            out := (parseLine World.empty (declLine ['x'] ['4', '2'])).1.out
              ++ intToStr (digitsValue ['4', '2']) ++ ['\n'] },
          Status.running) :=
  declaration_print_roundtrip World.empty ['x'] ['4', '2'] (by decide) (by decide) (by decide)
    (by decide) (by decide) (by decide) (by decide) (by decide)

/-- C2, as stated, fails for a body that holds `let`: with `a = 5`, `b = 3`, `c = 0` the line
`if (a > b) { let c = a; }` is taken for a declaration; `c` keeps the value 0 although the
value of `a` is the greater one, and no branch message is written. -/
theorem conditional_body_with_let :
    Store.find
        (parseLine { vars := [(['a'], 5), (['b'], 3), (['c'], 0)], out := [], err := [] }
          (ifLine ['a'] ['b'] " \x7b let c = a; \x7d".toList)).1.vars ['c'] = some 0 ∧
      (parseLine { vars := [(['a'], 5), (['b'], 3), (['c'], 0)], out := [], err := [] }
          (ifLine ['a'] ['b'] " \x7b let c = a; \x7d".toList)).1.out =
        "Variable a > b) \x7b let c set to 5".toList ++ ['\n'] := by
  decide

/-- C2, amended: let `A` and `B` be bound names that hold no blank, tab, `)` or `>`, and let
`let` occur neither in `A`, nor in `B`, nor in the text after the closing parenthesis. Then
the line `if (A > B)` followed by that text leaves the process running with `c` bound to the
stored value of `A` when it is greater than the stored value of `B`, and to the stored value
of `B` otherwise. The line is taken to be shorter than `npos`, as every `std::string` is. -/
theorem conditional_assigns_c (w : World) (A B body : Str) (a b : Int)
    (hA : ∀ c ∈ A, c ∉ [' ', '\t', ')', '>']) (hB : ∀ c ∈ B, c ∉ [' ', '\t', ')', '>'])
    (hlA : ¬ "let".toList <:+: A) (hlB : ¬ "let".toList <:+: B)
    (hlbody : ¬ "let".toList <:+: body)
    (hbA : Store.find w.vars A = some a) (hbB : Store.find w.vars B = some b)
    (hlen : (ifLine A B body).length < npos) :
    (parseLine w (ifLine A B body)).2 = Status.running ∧
      Store.find (parseLine w (ifLine A B body)).1.vars ['c'] =
        some (if a > b then a else b) := by
  have he : evaluateCondition w A B '>' = (w, decide (a > b)) := by
    simp [evaluateCondition, hbA, hbB, Store.index_of_find _ _ _ hbA,
      Store.index_of_find _ _ _ hbB]
  rw [parseLine_if w A B body hA hB hlA hlB hlbody hlen, he]
  by_cases hab : a > b
  · simp [hab, Store.index_of_find _ _ _ hbA, Store.find_assign_same]
  · simp [hab, Store.index_of_find _ _ _ hbB, Store.find_assign_same]

/-- The conditional of C2 on `if (a > b) { c = a; } else { c = b; }` with `a = 5`, `b = 3`. -/
theorem conditional_assigns_c_witness :
    (parseLine { vars := [(['a'], 5), (['b'], 3)], out := [], err := [] }
        (ifLine ['a'] ['b'] " \x7b c = a; \x7d else \x7b c = b; \x7d".toList)).2 = Status.running ∧
      Store.find
        (parseLine { vars := [(['a'], 5), (['b'], 3)], out := [], err := [] }
          (ifLine ['a'] ['b'] " \x7b c = a; \x7d else \x7b c = b; \x7d".toList)).1.vars ['c'] =
        some (if (5 : Int) > 3 then 5 else 3) :=
  conditional_assigns_c { vars := [(['a'], 5), (['b'], 3)], out := [], err := [] } ['a'] ['b']
    " \x7b c = a; \x7d else \x7b c = b; \x7d".toList 5 3 (by decide) (by decide) (by decide) (by decide)
    (by decide) (by decide) (by decide) (by decide)

/-- C3, as stated, fails for a negative left literal, for the right literal `-1` and for a
result outside `int`: `-5 + 3` evaluates to `-1` (not `-2`) after a diagnostic for the empty
left operand, `5 + -1` evaluates to `-1` (not 4), and `2147483647 + 1` does not give
2147483648 (in 32 bits it wraps to `-2147483648`). -/
theorem evaluateExpression_literals_not_always :
    evaluateExpression World.empty (binExpr ['-', '5'] '+' ['3']) =
        ({ World.empty with err := "Error: Invalid argument: ".toList ++ ['\n'] },
          Res.val (-1)) ∧
      evaluateExpression World.empty (binExpr ['5'] '+' ['-', '1']) =
        (World.empty, Res.val (-1)) ∧
      evaluateExpression World.empty (binExpr "2147483647".toList '+' ['1']) =
        (World.empty, Res.val (-2147483648)) := by
  decide

/-- C3, amended: let the left operand be an unsigned literal (a non-empty run of decimal
digits) and the right operand a literal with an optional minus sign, both with values in the
range of `int`, neither bound as a name in the store; let the operator be one of `+ - * /`,
the right value differ from `-1`, and from 0 when the operator is `/`, and let the exact
result fit an `int`. Then the Expression Evaluator applied to `a op b` returns the standard
integer result, the division truncating toward zero, and writes nothing. The text is taken to
be shorter than `npos`, as every `std::string` is. -/
theorem evaluateExpression_literals (w : World) (a sign bd : Str) (op : Char)
    (hane : a ≠ []) (had : ∀ c ∈ a, isdigit c = true)
    (hsign : sign = [] ∨ sign = ['-'])
    (hbne : bd ≠ []) (hbd : ∀ c ∈ bd, isdigit c = true)
    (hop : op ∈ ['+', '-', '*', '/'])
    (hra : digitsValue a ≤ 2147483647)
    (hrb : -2147483648 ≤ signedValue sign bd ∧ signedValue sign bd ≤ 2147483647)
    (hfa : Store.find w.vars a = none) (hfb : Store.find w.vars (sign ++ bd) = none)
    (hb1 : signedValue sign bd ≠ -1) (hb0 : op = '/' → signedValue sign bd ≠ 0)
    (hfit : -2147483648 ≤ intOp op (digitsValue a) (signedValue sign bd) ∧
      intOp op (digitsValue a) (signedValue sign bd) ≤ 2147483647)
    (hlen : (binExpr a op (sign ++ bd)).length < npos) :
    evaluateExpression w (binExpr a op (sign ++ bd)) =
      (w, Res.val (intOp op (digitsValue a) (signedValue sign bd))) := by
  have hl : ∀ c ∈ a, c ∉ [' ', '\t', '+', '-', '*', '/'] := fun c hc =>
    isdigit_not_mem c (had c hc) _ (by decide)
  have hr : ∀ c ∈ sign ++ bd, c ∉ [' ', '\t'] := by
    intro c hc
    rcases List.mem_append.mp hc with h | h
    · rcases hsign with rfl | rfl
      · simp at h
      · simp only [List.mem_singleton] at h
        subst h; decide
    · exact isdigit_not_mem c (hbd c h) _ (by decide)
  have hga := getValue_digits w a hane had hra hfa
  have hgb : getValue w (sign ++ bd) = (w, Res.val (signedValue sign bd)) := by
    have hs := stoi_literal [] sign bd [] (by simp)
      (hsign.elim Or.inl (fun h => Or.inr (Or.inl h))) hbne hbd (by simp)
    rw [if_pos hrb] at hs
    simp only [List.append_nil, List.nil_append] at hs
    simp [getValue, hfb, hs]
  have hna : ¬ ((digitsValue a : Int) = -1) := by omega
  rw [evaluateExpression_binExpr w a (sign ++ bd) op hl hr hop hlen, hga]
  simp only [hgb, ne_eq, hna, hb1, not_false_eq_true, and_self, if_true]
  simp only [List.mem_cons, List.mem_singleton, List.mem_nil_iff, or_false] at hop
  rcases hop with rfl | rfl | rfl | rfl
  · simp only [intOp, if_true] at hfit
    simp [applyOp, intOp, wrapInt_of_range _ hfit.1 hfit.2]
  · have e1 : ¬ ('-' = '+') := by decide
    simp only [intOp, e1, if_false, if_true] at hfit
    simp [applyOp, intOp, wrapInt_of_range _ hfit.1 hfit.2]
  · have e1 : ¬ ('*' = '+') := by decide
    have e2 : ¬ ('*' = '-') := by decide
    simp only [intOp, e1, e2, if_false, if_true] at hfit
    simp [applyOp, intOp, wrapInt_of_range _ hfit.1 hfit.2]
  · simp [applyOp, intOp, hb0 rfl]

/-- The evaluation of C3 on `7 / -2`, which gives `-3`. -/
theorem evaluateExpression_literals_witness :
    evaluateExpression World.empty (binExpr ['7'] '/' (['-'] ++ ['2'])) =
      (World.empty, Res.val (intOp '/' (digitsValue ['7']) (signedValue ['-'] ['2']))) :=
  evaluateExpression_literals World.empty ['7'] ['-'] ['2'] '/' (by decide) (by decide)
    (by decide) (by decide) (by decide) (by decide) (by decide) (by decide) (by decide)
    (by decide) (by decide) (by decide) (by decide) (by decide)

/-- C4, as stated, fails for an unbound name that starts with digits and for an expression
that starts with a minus sign once the empty name is bound. From the empty store `2x` is
unbound (and can be bound: `let 2x = 5;` binds it), yet `let y = 1 + 2x;` binds `y` to 3 and
writes its confirmation, because `std::stoi` reads the prefix `2`. After `if (a >)` has
created the empty name, `let x = -3 + y;` with `y` unbound binds `x` to `-3`. -/
theorem declaration_unbound_name_not_always_dropped :
    Store.find World.empty.vars ['2', 'x'] = none ∧
      parseLine World.empty (declLine ['2', 'x'] ['5']) =
        ({ vars := [(['2', 'x'], 5)], out := "Variable 2x set to 5".toList ++ ['\n'],
           err := [] }, Status.running) ∧
      parseLine World.empty (declLine ['y'] "1 + 2x".toList) =
        ({ vars := [(['y'], 3)], out := "Variable y set to 3".toList ++ ['\n'], err := [] },
          Status.running) ∧
      Store.find (parseLine World.empty "if (a >)".toList).1.vars ['y'] = none ∧
      Store.find
        (parseLine (parseLine World.empty "if (a >)".toList).1
          (declLine ['x'] "-3 + y".toList)).1.vars ['x'] = some (-3) := by
  decide

/-- C4, amended: let `X` hold no `=`, let `V` be a variable name that starts with a letter or
an underscore (followed by letters, digits and underscores) and is not bound in the store,
and let the expression be `V` alone, or `V op T` or `T op V` for an operator among `+ - * /`
with any blanks (or none) around it and a second token `T` (a name or an unsigned literal).
Then after the line `let X = <expr>;` the store is the store before the line and standard
output is unchanged, so no confirmation is written. The line is taken to be shorter than
`npos`, as every `std::string` is. -/
theorem declaration_unbound_name_is_dropped (w : World) (X V T e p1 p2 : Str) (op : Char)
    (hX : '=' ∉ X) (hV : isName V = true) (hT : isToken T = true)
    (hop : op ∈ ['+', '-', '*', '/'])
    (hp1 : ∀ c ∈ p1, isBlank c = true) (hp2 : ∀ c ∈ p2, isBlank c = true)
    (hfree : Store.find w.vars V = none)
    (he : e = V ∨ e = paddedExpr V p1 op p2 T ∨ e = paddedExpr T p1 op p2 V)
    (hlen : (declLine X e).length < npos) :
    (parseLine w (declLine X e)).1.vars = w.vars ∧
      (parseLine w (declLine X e)).1.out = w.out := by
  obtain ⟨hVne, hVall⟩ := (isToken_iff V).mp (by
    simp only [isName, Bool.and_eq_true] at hV
    exact hV.1)
  obtain ⟨hTne, hTall⟩ := (isToken_iff T).mp hT
  have helen : e.length < npos := by
    rw [declLine_eq] at hlen
    simp only [List.length_append, List.length_cons, List.length_nil] at hlen
    omega
  have hpad : ∀ (p : Str), (∀ c ∈ p, isBlank c = true) → ';' ∉ p := by
    intro p hp hm
    have := hp ';' hm
    revert this; decide
  have hsemi : ';' ∉ e := by
    have hVs : ';' ∉ V := fun hm => by
      have := hVall _ hm
      revert this; decide
    have hTs : ';' ∉ T := fun hm => by
      have := hTall _ hm
      revert this; decide
    have hops : ';' ≠ op := by
      simp only [List.mem_cons, List.mem_singleton, List.mem_nil_iff, or_false] at hop
      rcases hop with rfl | rfl | rfl | rfl <;> decide
    rcases he with rfl | rfl | rfl
    · exact hVs
    · simp [paddedExpr, hVs, hTs, hops, hpad p1 hp1, hpad p2 hp2]
    · simp [paddedExpr, hVs, hTs, hops, hpad p1 hp1, hpad p2 hp2]
  have hhead : ∀ c, e.head? = some c → isBlank c = false := by
    have hb : ∀ (t : Str), t ≠ [] → (∀ c ∈ t, identChar c = true) → ∀ (u : Str) (c : Char),
        (t ++ u).head? = some c → isBlank c = false := by
      intro t htne htall u c hc
      obtain ⟨x, xs, rfl⟩ := List.exists_cons_of_ne_nil htne
      simp only [List.cons_append, List.head?_cons, Option.some.injEq] at hc
      subst hc
      have := identChar_not_mem _ (htall _ (List.mem_cons_self _ _)) blanks (by decide)
      simpa [isBlank] using this
    rcases he with rfl | rfl | rfl
    · intro c hc
      exact hb e hVne hVall [] c (by simpa using hc)
    · intro c hc
      exact hb V hVne hVall (p1 ++ op :: (p2 ++ T)) c (by simpa [paddedExpr] using hc)
    · intro c hc
      exact hb T hTne hTall (p1 ++ op :: (p2 ++ V)) c (by simpa [paddedExpr] using hc)
  have hfr := evaluateExpression_frame w e
  have hv := evaluateExpression_unbound_name w V T e p1 p2 op hV hT hop hp1 hp2 hfree he helen
  rw [parseLine_declaration w X e hX hsemi hhead hlen]
  rcases hev : evaluateExpression w e with ⟨w1, r⟩
  rw [hev] at hfr
  cases r with
  | fault f => exact hfr
  | val v =>
    have := hv w1 v hev
    subst this
    simpa using hfr

/-- The declaration of C4 on `let x = a +y;` with `a = 5` and `y` unbound. -/
theorem declaration_unbound_name_is_dropped_witness :
    (parseLine { vars := [(['a'], 5)], out := [], err := [] }
        (declLine ['x'] (paddedExpr ['a'] [' '] '+' [] ['y']))).1.vars = [(['a'], 5)] ∧
      (parseLine { vars := [(['a'], 5)], out := [], err := [] }
        (declLine ['x'] (paddedExpr ['a'] [' '] '+' [] ['y']))).1.out = [] :=
  declaration_unbound_name_is_dropped { vars := [(['a'], 5)], out := [], err := [] } ['x'] ['y']
    ['a'] (paddedExpr ['a'] [' '] '+' [] ['y']) [' '] [] '+' (by decide) (by decide)
    (by decide) (by decide) (by decide) (by decide) (by decide) (Or.inr (Or.inr rfl))
    (by decide)

/-- C5: when the lines `pre` run to their end without ending the process, running `pre`, a
line dispatched to the `exit` branch (such as `exit(0);`) and then any lines `rest` gives the
same store, standard output, error output and status as running `pre` and the exit line alone:
the state reached after `pre` with the termination notice appended, terminated with exit
code 0. No line of `rest` is processed. -/
theorem exit_halts_remaining_lines (w w1 : World) (pre rest : List Str) (exitLine : Str)
    (hpre : runLines w pre = (w1, Status.running)) (hexit : isExitLine exitLine) :
    runLines w (pre ++ exitLine :: rest) = runLines w (pre ++ [exitLine]) ∧
    runLines w (pre ++ exitLine :: rest) =
      ({ w1 with out := w1.out ++ "Exiting the program.".toList ++ ['\n'] },
        Status.exited 0) := by
  have key : ∀ tail : List Str, runLines w (pre ++ exitLine :: tail) =
      ({ w1 with out := w1.out ++ "Exiting the program.".toList ++ ['\n'] },
        Status.exited 0) := by
    intro tail
    rw [runLines_append, hpre]
    simp only [runLines, parseLine_exit w1 exitLine hexit]
  exact ⟨(key rest).trans (key []).symm, key rest⟩

/-- The run of C5 on `let a = 5;`, `exit(0);`, `print a;` from the empty store. -/
theorem exit_halts_remaining_lines_witness :
    runLines World.empty (["let a = 5;".toList] ++ "exit(0);".toList :: ["print a;".toList]) =
        runLines World.empty (["let a = 5;".toList] ++ ["exit(0);".toList]) ∧
      runLines World.empty (["let a = 5;".toList] ++ "exit(0);".toList :: ["print a;".toList]) =
        ({ vars := [(['a'], 5)]
           out := "Variable a set to 5".toList ++ ['\n'] ++ "Exiting the program.".toList
             ++ ['\n']
           err := [] }, Status.exited 0) :=
  exit_halts_remaining_lines World.empty
    { vars := [(['a'], 5)], out := "Variable a set to 5".toList ++ ['\n'], err := [] }
    ["let a = 5;".toList] ["print a;".toList] "exit(0);".toList (by decide)
    (by unfold isExitLine; decide)

/-- C6, as stated, fails for a name that contains a keyword: with `gif` unbound the line
`print gif;` is taken for a conditional without an operator and writes no diagnostic at
all. -/
theorem print_unbound_keyword_name :
    parseLine World.empty (printLine "gif".toList) = (World.empty, Status.running) := by
  decide

/-- C6, amended: let the name `V` hold no blank, tab or `;`, contain neither `let` nor `if`
and be unbound in the store. Then `print V;` appends the diagnostic `Error: Variable V not
found!` to the error stream, writes nothing to standard output, leaves the store unchanged
and the process running, and the lines that follow are processed from exactly that state. The
line is taken to be shorter than `npos`, as every `std::string` is. -/
theorem print_unbound_diagnostic (w : World) (V : Str) (rest : List Str)
    (hV : ∀ c ∈ V, c ∉ [' ', '\t', ';'])
    (hlet : ¬ "let".toList <:+: V) (hif : ¬ "if".toList <:+: V)
    (hfree : Store.find w.vars V = none) (hlen : (printLine V).length < npos) :
    parseLine w (printLine V) =
        ({ w with err := w.err ++ "Error: Variable ".toList ++ V ++ " not found!".toList
            ++ ['\n'] },
          Status.running) ∧
      runLines w (printLine V :: rest) =
        runLines
          { w with err := w.err ++ "Error: Variable ".toList ++ V ++ " not found!".toList
              ++ ['\n'] }
          rest := by
  have hVh : ∀ c, V.head? = some c → isBlank c = false := by
    intro c hc
    have := hV c (List.mem_of_mem_head? hc)
    simp only [List.mem_cons, List.mem_singleton, not_or, List.mem_nil_iff, or_false] at this
    simp [isBlank, blanks, this.1, this.2.1]
  have h1 := parseLine_print w V (fun hm => hV ';' hm (by decide)) hVh hlet hif hlen
  rw [hfree] at h1
  refine ⟨h1, ?_⟩
  simp only [runLines, h1]

/-- The print of C6 on `print v;` from the empty store, followed by two more lines. -/
theorem print_unbound_diagnostic_witness :
    parseLine World.empty (printLine ['v']) =
        ({ World.empty with
            err := [] ++ "Error: Variable ".toList ++ ['v'] ++ " not found!".toList ++ ['\n'] },
          Status.running) ∧
      runLines World.empty (printLine ['v'] :: [declLine ['v'] ['1'], printLine ['v']]) =
        runLines
          { World.empty with
            err := [] ++ "Error: Variable ".toList ++ ['v'] ++ " not found!".toList ++ ['\n'] }
          [declLine ['v'] ['1'], printLine ['v']] :=
  print_unbound_diagnostic World.empty ['v'] [declLine ['v'] ['1'], printLine ['v']]
    (by decide) (by decide) (by decide) (by decide) (by decide)

/-- C7: run from the empty store on the six lines `let a = 5;`, `let b = 3;`, `let c = 0;`,
`if (a > b) { c = a; } else { c = b; }`, `print c;`, `exit(0);`, the engine ends with `a = 5`,
`b = 3`, `c = 5`, has written the three confirmations, the branch message, the line `5` of the
print statement and the termination notice to standard output, nothing to the error stream,
and has terminated through `exit` with code 0. -/
theorem six_line_scenario :
    compile World.empty
        ("let a = 5;".toList ++ ['\n'] ++ "let b = 3;".toList ++ ['\n'] ++ "let c = 0;".toList
          ++ ['\n'] ++ "if (a > b) \x7b c = a; \x7d else \x7b c = b; \x7d".toList ++ ['\n']
          ++ "print c;".toList ++ ['\n'] ++ "exit(0);".toList) =
      ({ vars := [(['a'], 5), (['b'], 3), (['c'], 5)]
         out := "Variable a set to 5".toList ++ ['\n'] ++ "Variable b set to 3".toList ++ ['\n']
           ++ "Variable c set to 0".toList ++ ['\n'] ++ "Condition met: a > b".toList ++ ['\n']
           ++ ['5', '\n'] ++ "Exiting the program.".toList ++ ['\n']
         err := [] }, Status.exited 0) := by
  decide

/-- C8: for a line dispatched to the declaration branch whose name and value texts are
extracted and whose expression evaluates to `v`: when `v` is not `-1` the name is bound to
exactly `v`, every other name keeps its binding and the confirmation `Variable <name> set to
<v>` is appended to standard output; when `v` is `-1` the store and standard output are
unchanged. In both cases the line leaves the process running. -/
theorem declaration_stores_iff_not_sentinel (w w1 : World) (line varName valueStr : Str)
    (v : Int)
    (hlet : find (trim line) "let".toList ≠ npos)
    (hname : substr (trim line) 4 (sizeSub (find (trim line) ['=']) 5) = some varName)
    (hval : substr (trim line) (sizeAdd (find (trim line) ['=']) 2) npos = some valueStr)
    (hev : evaluateExpression w (removeSemicolons (trim valueStr)) = (w1, Res.val v)) :
    (v ≠ -1 →
      parseLine w line =
        ({ vars := Store.assign w.vars varName v
           out := w.out ++ "Variable ".toList ++ varName ++ " set to ".toList
             ++ intToStr v ++ ['\n']
           err := w1.err }, Status.running) ∧
      Store.find (parseLine w line).1.vars varName = some v ∧
      ∀ k, k ≠ varName → Store.find (parseLine w line).1.vars k = Store.find w.vars k) ∧
    (v = -1 → parseLine w line = ({ w with err := w1.err }, Status.running)) := by
  have e1 : trim line ≠ [] := by
    intro e
    rw [e] at hlet
    exact hlet (by decide)
  have e2 : trim line ≠ [';'] := by
    intro e
    rw [e] at hlet
    exact hlet (by decide)
  have hp : parseLine w line = handleDeclaration w (trim line) := by
    simp only [parseLine, e1, e2, or_self, if_false, hlet, ne_eq, not_false_eq_true, if_true]
  have hf := evaluateExpression_frame w (removeSemicolons (trim valueStr))
  rw [hev] at hf
  have hw1 : w1 = { w with err := w1.err } := by
    cases w1
    cases w
    simp only [World.mk.injEq] at hf ⊢
    simp_all
  constructor
  · intro hv
    have hd : handleDeclaration w (trim line) =
        ({ vars := Store.assign w.vars varName v
           out := w.out ++ "Variable ".toList ++ varName ++ " set to ".toList
             ++ intToStr v ++ ['\n']
           err := w1.err }, Status.running) := by
      have hv1 : w1.vars = w.vars := hf.1
      have ho1 : w1.out = w.out := hf.2
      simp only [handleDeclaration, hname, hval, hev, ne_eq, hv, not_false_eq_true, if_true,
        hv1, ho1]
    rw [hp, hd]
    exact ⟨rfl, Store.find_assign_same _ _ _, fun k hk => Store.find_assign_other _ _ _ _ hk⟩
  · intro hv
    rw [hp]
    simp only [handleDeclaration, hname, hval, hev, ne_eq, hv, not_true_eq_false, if_false]
    rw [Prod.mk.injEq]
    exact ⟨hw1, rfl⟩

/-- The declaration of C8 on `let x = 2 - 3;`, whose value `-1` is dropped. -/
theorem declaration_stores_iff_not_sentinel_witness :
    parseLine World.empty "let x = 2 - 3;".toList = (World.empty, Status.running) :=
  (declaration_stores_iff_not_sentinel World.empty World.empty "let x = 2 - 3;".toList
    ['x'] "2 - 3;".toList (-1) (by decide) (by decide) (by decide) (by decide)).2 rfl

/-- C9: the Condition Evaluator answers true exactly when both tokens are bound in the store
and either the operator is `>` and the first stored value is greater than the second, or the
operator is `<` and it is smaller; so it is false when an operand is unbound or the operator
is any other character. It leaves the store and both streams as they were. -/
theorem evaluateCondition_contract (w : World) (t1 t2 : Str) (op : Char) :
    ((evaluateCondition w t1 t2 op).2 = true ↔
      ∃ v1 v2, Store.find w.vars t1 = some v1 ∧ Store.find w.vars t2 = some v2 ∧
        ((op = '>' ∧ v1 > v2) ∨ (op = '<' ∧ v1 < v2))) ∧
    (evaluateCondition w t1 t2 op).1 = w := by
  unfold evaluateCondition
  cases h1 : Store.find w.vars t1 with
  | none => simp
  | some v1 =>
    cases h2 : Store.find w.vars t2 with
    | none => simp
    | some v2 =>
      simp only [Option.isSome_some, and_self, if_true, Store.index_of_find _ _ _ h1,
        Store.index_of_find _ _ _ h2]
      by_cases hg : op = '>'
      · subst hg
        simp
      · by_cases hl : op = '<'
        · subst hl
          simp
        · simp [hg, hl]

/-- C10, as stated, fails: the unbound token `12abc` is digits followed by other characters,
yet the Value Resolver returns 12 and writes no diagnostic. -/
theorem getValue_digits_then_text :
    getValue World.empty "12abc".toList = (World.empty, Res.val 12) ∧
      (getValue World.empty "12abc".toList).2 ≠ Res.val (-1) ∧
      (getValue World.empty "12abc".toList).1.err = [] := by
  decide

/-- C10, amended: the Value Resolver never changes the store or standard output. A bound
token resolves to its stored value. An unbound token made of optional white space, an optional
sign, a non-empty run of decimal digits and any text that does not go on with a digit resolves
to the signed value of the digit run when that value fits an `int`, with nothing written. An
unbound token in which the white space and the optional sign are not followed by a digit
(the empty text, a name) resolves to `-1` after the diagnostic `Error: Invalid argument:
<token>` is appended to the error stream. -/
theorem getValue_contract (w : World) (t : Str) :
    ((getValue w t).1.vars = w.vars ∧ (getValue w t).1.out = w.out) ∧
    (∀ v, Store.find w.vars t = some v → getValue w t = (w, Res.val v)) ∧
    (∀ ws sign ds rest : Str, Store.find w.vars t = none → t = ws ++ sign ++ ds ++ rest →
      (∀ c ∈ ws, isspace c = true) → (sign = [] ∨ sign = ['-'] ∨ sign = ['+']) → ds ≠ [] →
      (∀ c ∈ ds, isdigit c = true) → (∀ c, rest.head? = some c → isdigit c = false) →
      (-2147483648 ≤ signedValue sign ds ∧ signedValue sign ds ≤ 2147483647) →
      getValue w t = (w, Res.val (signedValue sign ds))) ∧
    (∀ ws sign rest : Str, Store.find w.vars t = none → t = ws ++ sign ++ rest →
      (∀ c ∈ ws, isspace c = true) → (sign = [] ∨ sign = ['-'] ∨ sign = ['+']) →
      (∀ c, rest.head? = some c → isdigit c = false) →
      (sign = [] → ∀ c, rest.head? = some c → isspace c = false ∧ c ≠ '-' ∧ c ≠ '+') →
      getValue w t =
        ({ w with err := w.err ++ "Error: Invalid argument: ".toList ++ t ++ ['\n'] },
          Res.val (-1))) := by
  refine ⟨getValue_frame w t, getValue_bound w t, ?_, ?_⟩
  · intro ws sign ds rest hfree ht hws hsign hne hds hr hrange
    have hs := stoi_literal ws sign ds rest hws hsign hne hds hr
    rw [if_pos hrange, ← ht] at hs
    simp [getValue, hfree, hs]
  · intro ws sign rest hfree ht hws hsign hr hr0
    have hs := stoi_invalid ws sign rest hws hsign hr hr0
    rw [← ht] at hs
    simp only [getValue, hfree, Option.isSome_none, Bool.false_eq_true, if_false, hs]

/-- The resolver of C10 on the tokens `-42;` and `abc`, both unbound, and on a bound `x`. -/
theorem getValue_contract_witness :
    getValue World.empty "-42;".toList = (World.empty, Res.val (-42)) ∧
      getValue World.empty "abc".toList =
        ({ World.empty with err := "Error: Invalid argument: abc".toList ++ ['\n'] },
          Res.val (-1)) ∧
      getValue { World.empty with vars := [(['x'], 7)] } ['x'] =
        ({ World.empty with vars := [(['x'], 7)] }, Res.val 7) :=
  ⟨(getValue_contract World.empty "-42;".toList).2.2.1 [] ['-'] ['4', '2'] [';'] (by decide)
      (by decide) (by decide) (by decide) (by decide) (by decide) (by decide) (by decide),
    (getValue_contract World.empty "abc".toList).2.2.2 [] [] "abc".toList (by decide)
      (by decide) (by decide) (by decide) (by decide) (by decide),
    (getValue_contract { World.empty with vars := [(['x'], 7)] } ['x']).2.1 7 (by decide)⟩

/-- C11 does not hold of the code: `getValue` catches `std::invalid_argument` only, so the
`std::out_of_range` that `std::stoi` throws for a literal too large for an `int` leaves
`compile`, and the line after `let big = 99999999999;` is never processed. The
`std::out_of_range` of `substr` ends the run in the same way on a bare `print`, a bare `let`
and `let x =`. -/
theorem uncaught_out_of_range_faults :
    compile World.empty ("let big = 99999999999;".toList ++ ['\n'] ++ "print big;".toList) =
        (World.empty, Status.faulted Fault.outOfRange) ∧
      parseLine World.empty "print".toList = (World.empty, Status.faulted Fault.outOfRange) ∧
      parseLine World.empty "let".toList = (World.empty, Status.faulted Fault.outOfRange) ∧
      parseLine World.empty "let x =".toList =
        (World.empty, Status.faulted Fault.outOfRange) := by
  decide

/-- C12: a line whose text, once its leading and trailing spaces and tabs are removed, is
empty, is exactly `;`, or contains none of `let`, `if`, `print`, `exit`, is a no-op of the
Statement Dispatcher: store, standard output and error output are unchanged and the process
keeps running. The line is taken to be shorter than `npos`, as every `std::string` is. -/
theorem parseLine_noop (w : World) (line : Str) (hlen : line.length < npos)
    (h : stripBlanks line = [] ∨ stripBlanks line = [';'] ∨
      (¬ "let".toList <:+: stripBlanks line ∧ ¬ "if".toList <:+: stripBlanks line ∧
        ¬ "print".toList <:+: stripBlanks line ∧ ¬ "exit".toList <:+: stripBlanks line)) :
    parseLine w line = (w, Status.running) := by
  have ht : trim line = stripBlanks line := trim_eq line hlen
  unfold parseLine
  simp only [ht]
  rcases h with h | h | ⟨h1, h2, h3, h4⟩
  · simp only [h, true_or, if_true]
  · simp only [h, or_true, if_true]
  · simp only [find_absent _ _ h1, find_absent _ _ h2, find_absent _ _ h3, find_absent _ _ h4,
      ne_eq, not_true_eq_false, if_false, ite_self]

/-- The no-op of C12 on the line `   c = a;  `, which holds no keyword. -/
theorem parseLine_noop_witness :
    parseLine World.empty "   c = a;  ".toList = (World.empty, Status.running) :=
  parseLine_noop World.empty "   c = a;  ".toList (by decide)
    (Or.inr (Or.inr (by decide)))

/-- C14 does not hold of the code: `handleIfCondition` reads `variables[var2]` without the
`find` test its sibling functions make, so an unbound right operand is created as a key.
From the empty store the line `if (5 > 3) {` leaves the name `3`, unbound before, bound
to 0. -/
theorem conditional_creates_right_operand :
    parseLine World.empty "if (5 > 3) \x7b".toList =
        ({ vars := [(['3'], 0), (['c'], 0)],
           out := "Condition not met: 5 > 3".toList ++ ['\n'], err := [] }, Status.running) ∧
      Store.find World.empty.vars ['3'] = none ∧
      Store.find (parseLine World.empty "if (5 > 3) \x7b".toList).1.vars ['3'] = some 0 := by
  decide

/-- C15, as stated, fails: `let` is tested before `if`, so `let ifValue = 5;` is handled as a
declaration, not by the conditional handler, and binds `ifValue` to 5. -/
theorem ifValue_is_declared :
    parseLine World.empty (declLine "ifValue".toList ['5']) =
        ({ vars := [("ifValue".toList, 5)],
           out := "Variable ifValue set to 5".toList ++ ['\n'], err := [] }, Status.running) ∧
      parseLine World.empty (declLine "ifValue".toList ['5']) ≠
        handleIfCondition World.empty (trim (declLine "ifValue".toList ['5'])) := by
  decide

/-- C15, amended: in every store where the token `5` is not bound as a name, the line
`let ifValue = 5;` is handled as a declaration and binds `ifValue` to 5, with its
confirmation. It is a line that holds `if` and no `let`, such as `print ifValue;`, that the
Statement Dispatcher routes to the conditional handler, where it is a no-op. -/
theorem ifValue_declaration (w : World) (hfree : Store.find w.vars ['5'] = none) :
    parseLine w (declLine "ifValue".toList ['5']) =
        ({ w with
            vars := Store.assign w.vars "ifValue".toList 5
            out := w.out ++ "Variable ".toList ++ "ifValue".toList ++ " set to ".toList
              ++ intToStr 5 ++ ['\n'] },
          Status.running) ∧
      Store.find (parseLine w (declLine "ifValue".toList ['5'])).1.vars "ifValue".toList =
        some 5 ∧
      parseLine w (printLine "ifValue".toList) =
        handleIfCondition w (trim (printLine "ifValue".toList)) ∧
      parseLine w (printLine "ifValue".toList) = (w, Status.running) := by
  have h1 : parseLine w (declLine "ifValue".toList ['5']) =
      ({ w with
          vars := Store.assign w.vars "ifValue".toList 5
          out := w.out ++ "Variable ".toList ++ "ifValue".toList ++ " set to ".toList
            ++ intToStr 5 ++ ['\n'] },
        Status.running) := by
    rw [parseLine_declaration w "ifValue".toList ['5'] (by decide) (by decide) (by decide)
        (by decide),
      evaluateExpression_digits w ['5'] (by decide) (by decide) (by decide) hfree]
    rfl
  refine ⟨h1, ?_, rfl, rfl⟩
  rw [h1]
  exact Store.find_assign_same _ _ _

/-- The declaration of C15 from the empty store. -/
theorem ifValue_declaration_witness :
    parseLine World.empty (declLine "ifValue".toList ['5']) =
        ({ World.empty with
            vars := Store.assign World.empty.vars "ifValue".toList 5
            out := World.empty.out ++ "Variable ".toList ++ "ifValue".toList ++ " set to ".toList
              ++ intToStr 5 ++ ['\n'] },
          Status.running) :=
  (ifValue_declaration World.empty (by decide)).1

/-- C16: a line handled as a conditional (it holds `if` and no `let`) whose condition text,
the text `handleIfCondition` extracts between the first `(` and the first `)`, contains
neither `>` nor `<` is a no-op: store, standard output and error output are unchanged and the
process keeps running. -/
theorem conditional_without_operator_is_noop (w : World) (line cond : Str)
    (hlet : find (trim line) "let".toList = npos) (hif : find (trim line) "if".toList ≠ npos)
    (hcond : substr (trim line) (sizeAdd (find (trim line) ['(']) 1)
      (sizeSub (find (trim line) [')']) (sizeAdd (find (trim line) ['(']) 1)) = some cond)
    (hgt : '>' ∉ cond) (hlt : '<' ∉ cond) :
    parseLine w line = (w, Status.running) := by
  rw [parseLine_conditional w line hlet hif]
  simp only [handleIfCondition, hcond, find_single_none cond '>' hgt,
    find_single_none cond '<' hlt, if_true, ne_eq, not_true_eq_false, if_false]

/-- The no-op of C16 on the line `if (a) {`. -/
theorem conditional_without_operator_is_noop_witness :
    parseLine World.empty "if (a) \x7b".toList = (World.empty, Status.running) :=
  conditional_without_operator_is_noop World.empty "if (a) \x7b".toList ['a'] (by decide)
    (by decide) (by decide) (by decide) (by decide)

/-- C17: a name bound before the Statement Dispatcher processes a line is still bound after
it, whatever the line; hence it is still bound after any sequence of lines. -/
theorem no_deletion (w : World) (k : Str) (hk : (Store.find w.vars k).isSome = true) :
    (∀ line, (Store.find (parseLine w line).1.vars k).isSome = true) ∧
      (∀ lines, (Store.find (runLines w lines).1.vars k).isSome = true) := by
  refine ⟨fun line => parseLine_bound w line k hk, ?_⟩
  intro lines
  induction lines generalizing w with
  | nil => exact hk
  | cons l ls ih =>
    have h1 := parseLine_bound w l k hk
    simp only [runLines]
    rcases hp : parseLine w l with ⟨w1, st⟩
    rw [hp] at h1
    cases st with
    | running => exact ih w1 h1
    | exited c => exact h1
    | faulted f => exact h1

/-- The invariant of C17 for the name `a` across a declaration of another name and across a
conditional. -/
theorem no_deletion_witness :
    (Store.find (parseLine { vars := [(['a'], 5)], out := [], err := [] }
        (declLine ['b'] ['3'])).1.vars ['a']).isSome = true ∧
      (Store.find (runLines { vars := [(['a'], 5)], out := [], err := [] }
        [declLine ['a'] ['7'], ifLine ['a'] ['b'] []]).1.vars ['a']).isSome = true :=
  ⟨(no_deletion { vars := [(['a'], 5)], out := [], err := [] } ['a'] (by decide)).1
      (declLine ['b'] ['3']),
    (no_deletion { vars := [(['a'], 5)], out := [], err := [] } ['a'] (by decide)).2
      [declLine ['a'] ['7'], ifLine ['a'] ['b'] []]⟩

/-- C18: starting from the empty store, after any sequence of lines, and after any source
text, no name is bound to the value `-1`. -/
theorem no_sentinel_reachable (lines : List Str) (code k : Str) :
    Store.find (runLines World.empty lines).1.vars k ≠ some (-1) ∧
      Store.find (compile World.empty code).1.vars k ≠ some (-1) :=
  ⟨runLines_noSentinel World.empty lines (fun _ h => by simp [World.empty, Store.find] at h) k,
    runLines_noSentinel World.empty (getlines code)
      (fun _ h => by simp [World.empty, Store.find] at h) k⟩

/-- C19: for a line handled as a conditional whose condition holds a relational operator at
position `opPos` and whose right operand token `trim r` is not bound in the store, the line
leaves the process running with both `c` and that token bound to 0. Thus after `if (5 > 3) {`
from the empty store the declaration `let x = 3;` binds `x` to 0. -/
theorem conditional_unbound_right_operand (w : World) (line cond l r : Str) (opPos : Nat)
    (hlet : find (trim line) "let".toList = npos) (hif : find (trim line) "if".toList ≠ npos)
    (hcond : substr (trim line) (sizeAdd (find (trim line) ['(']) 1)
      (sizeSub (find (trim line) [')']) (sizeAdd (find (trim line) ['(']) 1)) = some cond)
    (hpos : opPos = if find cond ['>'] = npos then find cond ['<'] else find cond ['>'])
    (hop : opPos ≠ npos)
    (hl : substr cond 0 opPos = some l) (hr : substr cond (sizeAdd opPos 1) npos = some r)
    (hfree : Store.find w.vars (trim r) = none) :
    ((parseLine w line).2 = Status.running ∧
      Store.find (parseLine w line).1.vars ['c'] = some 0 ∧
      Store.find (parseLine w line).1.vars (trim r) = some 0) ∧
    Store.find
      (runLines World.empty ["if (5 > 3) \x7b".toList, declLine ['x'] ['3']]).1.vars ['x'] =
        some 0 := by
  refine ⟨?_, by decide⟩
  have he : evaluateCondition w (trim l) (trim r) (charAt cond opPos) = (w, false) := by
    simp [evaluateCondition, hfree]
  have hi : Store.index w.vars (trim r) = (0, Store.assign w.vars (trim r) 0) := by
    simp [Store.index, hfree]
  have hp : parseLine w line =
      ({ w with
          vars := Store.assign (Store.assign w.vars (trim r) 0) ['c'] 0
          out := w.out ++ "Condition not met: ".toList ++ trim l ++ [' ', charAt cond opPos, ' ']
            ++ trim r ++ ['\n'] },
        Status.running) := by
    rw [parseLine_conditional w line hlet hif]
    subst hpos
    simp only [handleIfCondition, hcond, hop, hl, hr, he, hi, ne_eq, not_false_eq_true, if_true,
      Bool.false_eq_true, if_false]
  rw [hp]
  refine ⟨rfl, Store.find_assign_same _ _ _, ?_⟩
  by_cases hc : trim r = ['c']
  · rw [hc]
    exact Store.find_assign_same _ _ _
  · show Store.find (Store.assign (Store.assign w.vars (trim r) 0) ['c'] 0) (trim r) = some 0
    rw [Store.find_assign_other _ _ _ _ hc]
    exact Store.find_assign_same _ _ _

/-- The conditional of C19 on `if (5 > 3) {` from the empty store. -/
theorem conditional_unbound_right_operand_witness :
    (parseLine World.empty "if (5 > 3) \x7b".toList).2 = Status.running ∧
      Store.find (parseLine World.empty "if (5 > 3) \x7b".toList).1.vars ['c'] = some 0 ∧
      Store.find (parseLine World.empty "if (5 > 3) \x7b".toList).1.vars (trim [' ', '3']) =
        some 0 :=
  (conditional_unbound_right_operand World.empty "if (5 > 3) \x7b".toList "5 > 3".toList
    ['5', ' '] [' ', '3'] 2 (by decide) (by decide) (by decide) (by decide) (by decide)
    (by decide) (by decide) (by decide)).1


/-- C20, as stated, fails when the empty name is bound: after `if (a >)` has created the
empty name with the value 0, `let x = -5;` resolves its empty left operand to 0, computes
`0 - 5` and binds `x` to `-5`, with its confirmation. -/
theorem negative_literal_after_empty_name :
    Store.find
        (runLines World.empty ["if (a >)".toList, declLine ['x'] ['-', '5']]).1.vars ['x'] =
        some (-5) ∧
      (runLines World.empty ["if (a >)".toList, declLine ['x'] ['-', '5']]).1.out =
        "Condition not met: a > ".toList ++ ['\n'] ++ "Variable x set to -5".toList ++ ['\n'] ∧
      evaluateExpression { vars := [([], 0)], out := [], err := [] } ['-', '5'] =
        ({ vars := [([], 0)], out := [], err := [] }, Res.val (-5)) := by
  decide

/-- C20, amended: let `X` hold no `=`, let the literal be a non-empty run of decimal digits
whose value fits an `int`, and let the empty name be unbound in the store. Then the Expression
Evaluator, applied to the literal preceded by a minus sign, writes the diagnostic for its
empty left operand and returns `-1`, and the line `let X = -n;` leaves the store and standard
output unchanged and the process running. The line is taken to be shorter than `npos`, as
every `std::string` is. -/
theorem negative_literal_is_dropped (w : World) (X lit : Str) (hX : '=' ∉ X)
    (hne : lit ≠ []) (hds : ∀ c ∈ lit, isdigit c = true)
    (hrange : digitsValue lit ≤ 2147483647) (hempty : Store.find w.vars [] = none)
    (hlen : (declLine X ('-' :: lit)).length < npos) :
    evaluateExpression w ('-' :: lit) =
        ({ w with err := w.err ++ "Error: Invalid argument: ".toList ++ ['\n'] },
          Res.val (-1)) ∧
      parseLine w (declLine X ('-' :: lit)) =
        ({ w with err := w.err ++ "Error: Invalid argument: ".toList ++ ['\n'] },
          Status.running) := by
  have hlen' : X.length + lit.length + 9 < npos := by
    rw [declLine_eq] at hlen
    simp only [List.length_append, List.length_cons, List.length_nil] at hlen
    omega
  have hpos : find_first_of ('-' :: lit) ['+', '-', '*', '/'] = 0 := by
    simp [find_first_of, findIdxAux]
  have h0 : (0 : Nat) ≠ npos := by decide
  have hs1 : substr ('-' :: lit) 0 0 = some [] := by
    simp [substr, substrD]
  have hs2 : substr ('-' :: lit) (sizeAdd 0 1) npos = some lit := by
    apply substr_tail _ ['-'] lit
    · rfl
    · decide
    · omega
  have hbl : ∀ c ∈ lit, isBlank c = false := by
    intro c hc
    have := isdigit_not_mem c (hds c hc) blanks (by decide)
    simpa [isBlank] using this
  have ht1 : trim [] = [] := by decide
  have ht2 : trim lit = lit := by
    have := trim_pad [] lit [] (by simp) (by simp) hbl
      (by simp only [List.nil_append, List.append_nil]; omega)
    simpa using this
  have hg1 : getValue w [] =
      ({ w with err := w.err ++ "Error: Invalid argument: ".toList ++ ['\n'] },
        Res.val (-1)) := by
    have hs : stoi [] = Stoi.invalidArgument := by decide
    simp [getValue, hempty, hs]
  have hg2 : ∃ v, getValue
      { w with err := w.err ++ "Error: Invalid argument: ".toList ++ ['\n'] } lit =
      ({ w with err := w.err ++ "Error: Invalid argument: ".toList ++ ['\n'] },
        Res.val v) := by
    cases hf : Store.find w.vars lit with
    | some v => exact ⟨v, getValue_bound _ lit v hf⟩
    | none => exact ⟨_, getValue_digits _ lit hne hds hrange hf⟩
  obtain ⟨v, hg2⟩ := hg2
  have hev : evaluateExpression w ('-' :: lit) =
      ({ w with err := w.err ++ "Error: Invalid argument: ".toList ++ ['\n'] },
        Res.val (-1)) := by
    simp only [evaluateExpression, hpos, h0, ne_eq, not_false_eq_true, if_true, hs1, hs2, ht1,
      ht2, hg1, hg2, not_true_eq_false, false_and, if_false]
  refine ⟨hev, ?_⟩
  have hsemi : ';' ∉ ('-' :: lit) := by
    intro hm
    rcases List.mem_cons.mp hm with h | h
    · revert h; decide
    · have := hds ';' h
      revert this; decide
  rw [parseLine_declaration w X ('-' :: lit) hX hsemi
    (by intro c hc
        simp only [List.head?_cons, Option.some.injEq] at hc
        subst hc; decide) hlen, hev]
  simp

/-- The declaration of C20 on `let x = -5;` from the empty store. -/
theorem negative_literal_is_dropped_witness :
    evaluateExpression World.empty ('-' :: ['5']) =
        ({ World.empty with
            err := World.empty.err ++ "Error: Invalid argument: ".toList ++ ['\n'] },
          Res.val (-1)) ∧
      parseLine World.empty (declLine ['x'] ('-' :: ['5'])) =
        ({ World.empty with
            err := World.empty.err ++ "Error: Invalid argument: ".toList ++ ['\n'] },
          Status.running) :=
  negative_literal_is_dropped World.empty ['x'] ['5'] (by decide) (by decide) (by decide)
    (by decide) (by decide) (by decide)

end SimpleCompiler
